import Mathlib

/-!
Verification of the rules engine of the tactics-game repository.

The repository contains two in-tree variants of the engine:

* the modular library files `position.rs`, `board.rs`, `entity.rs` and
  `action_circle.rs`, embedded below in namespace `Lib`;
* the self-contained prototype `main.rs` (its own `Vec2`, `Board`, `spawn`,
  `do_damage`, `do_warp`, `do_move`, ...), embedded in namespace `Game`.

Both variants delegate path finding to the external `tcod` crate
(`AStar::new_from_map(map, 0.0)`, i.e. 4-directional movement with unit step
cost).  That library is not part of the repository, so it is modelled here by
an executable breadth-first search over the same navigation mask together with
a proof that the search computes exactly the declarative shortest-path
distances (`Search.bfs_correct`).  `astar.find(a, b)` is modelled as "the BFS
from `a` reaches `b`" and `astar.walk()` as a reconstructed shortest path
(excluding the origin, including the destination), whose length
`astar.walk().count()` is the shortest-path distance.

Machine integers are modelled as `Int` (`i32`) and `Nat` (`u32`/`usize`); the
claims under study are about bounds logic and small boards, where no wrap-around
is reachable.  `tcod::colors::Color` constants are abstracted to an enumeration
of the colour names used by the sources.
-/

namespace Search

variable {α : Type} [DecidableEq α]

/-- Association-list lookup with decidable equality on keys (model of the
distance map maintained by the path finder). -/
def lookupD : List (α × Nat) → α → Option Nat
  | [], _ => none
  | (q, n) :: rest, p => if p = q then some n else lookupD rest p

/-- `ReachN nbrs wk o n p`: there is a walk of length exactly `n` from `o`
to `p` whose every cell after `o` satisfies the walkability mask `wk`.
This is the declarative reference meaning of "reachable in `n` steps" on the
navigation map. -/
def ReachN (nbrs : α → List α) (wk : α → Bool) (o : α) : Nat → α → Prop
  | 0, p => p = o
  | n + 1, p => wk p = true ∧ ∃ q ∈ nbrs p, ReachN nbrs wk o n q

instance ReachN.decidable (nbrs : α → List α) (wk : α → Bool) (o : α) :
    ∀ (n : Nat) (p : α), Decidable (ReachN nbrs wk o n p)
  | 0, p => by unfold ReachN; infer_instance
  | n + 1, p => by
      unfold ReachN
      have := ReachN.decidable nbrs wk o n
      infer_instance

/-- `p` is reachable from `o` (in any number of steps). -/
def Reachable (nbrs : α → List α) (wk : α → Bool) (o p : α) : Prop :=
  ∃ n, ReachN nbrs wk o n p

/-- `n` is the exact shortest-path distance from `o` to `p`. -/
def IsDist (nbrs : α → List α) (wk : α → Bool) (o : α) (p : α) (n : Nat) : Prop :=
  ReachN nbrs wk o n p ∧ ∀ m < n, ¬ ReachN nbrs wk o m p

instance IsDist.decidable (nbrs : α → List α) (wk : α → Bool) (o p : α) (n : Nat) :
    Decidable (IsDist nbrs wk o p n) := by
  unfold IsDist; infer_instance

/-- Cells discovered by one expansion step of the search frontier. -/
def bfsNext (nbrs : α → List α) (wk : α → Bool)
    (dists : List (α × Nat)) (frontier : List α) : List α :=
  ((frontier.flatMap nbrs).filter fun q => wk q && (lookupD dists q).isNone).dedup

/-- Work loop of the breadth-first search: `dists` maps every cell at distance
`≤ d` to its distance, `frontier` is the list of cells at distance exactly `d`. -/
def bfsGo (nbrs : α → List α) (wk : α → Bool) :
    Nat → List (α × Nat) → List α → Nat → List (α × Nat)
  | 0, dists, _, _ => dists
  | fuel + 1, dists, frontier, d =>
    match h : bfsNext nbrs wk dists frontier with
    | [] => dists
    | q :: rest =>
      bfsGo nbrs wk fuel (dists ++ (q :: rest).map (fun c => (c, d + 1))) (q :: rest) (d + 1)

/-- Breadth-first search from `o`; models the repeated `astar.find` queries of
the sources against one map.  `fuel` must exceed every shortest-path distance
(the instantiations use `width * height + 1`). -/
def bfs (nbrs : α → List α) (wk : α → Bool) (fuel : Nat) (o : α) : List (α × Nat) :=
  bfsGo nbrs wk fuel [(o, 0)] [o] 0

/-- Walks back from a cell at distance `n` through cells of strictly decreasing
distance; returns the path from the origin's successor to the cell, origin
excluded.  Models `astar.walk()`. -/
def buildPath (nbrs : α → List α) (dists : List (α × Nat)) : Nat → α → List α
  | 0, _ => []
  | n + 1, p =>
    match (nbrs p).find? (fun q => lookupD dists q = some n) with
    | some q => buildPath nbrs dists n q ++ [p]
    | none => []

/-- `astar.find(o, t)` followed by `astar.walk()`: `none` when `t` is not
reachable from `o`, otherwise a shortest path (origin excluded, `t` included). -/
def findPath (nbrs : α → List α) (wk : α → Bool) (fuel : Nat) (o t : α) :
    Option (List α) :=
  let dists := bfs nbrs wk fuel o
  match lookupD dists t with
  | some n => some (buildPath nbrs dists n t)
  | none => none

theorem lookupD_append (l₁ l₂ : List (α × Nat)) (p : α) :
    lookupD (l₁ ++ l₂) p =
      match lookupD l₁ p with
      | some n => some n
      | none => lookupD l₂ p := by
  induction l₁ with
  | nil => simp [lookupD]
  | cons a rest ih =>
      obtain ⟨q, n⟩ := a
      by_cases h : p = q <;> simp [lookupD, h, ih]

theorem lookupD_map_const (l : List α) (d : Nat) (p : α) :
    lookupD (l.map fun c => (c, d)) p = if p ∈ l then some d else none := by
  induction l with
  | nil => simp [lookupD]
  | cons a rest ih =>
      by_cases h : p = a <;> simp [lookupD, h, ih]

theorem isDist_unique {nbrs : α → List α} {wk : α → Bool} {o p : α} {n m : Nat}
    (hn : IsDist nbrs wk o p n) (hm : IsDist nbrs wk o p m) : n = m := by
  rcases Nat.lt_trichotomy n m with h | h | h
  · exact absurd hn.1 (hm.2 n h)
  · exact h
  · exact absurd hm.1 (hn.2 m h)

/-- Any walk to `p` can be shortened to a shortest one. -/
theorem reachN_exists_isDist {nbrs : α → List α} {wk : α → Bool} {o p : α} :
    ∀ {m : Nat}, ReachN nbrs wk o m p → ∃ m' ≤ m, IsDist nbrs wk o p m' := by
  intro m
  induction m using Nat.strong_induction_on with
  | _ m ih =>
    intro hm
    by_cases h : ∃ k < m, ReachN nbrs wk o k p
    · obtain ⟨k, hk, hr⟩ := h
      obtain ⟨m', hm', hd⟩ := ih k hk hr
      exact ⟨m', le_of_lt (lt_of_le_of_lt hm' hk), hd⟩
    · push_neg at h
      exact ⟨m, le_refl m, hm, h⟩

/-- A cell at distance `m + 1` has a neighbour at distance exactly `m`. -/
theorem isDist_pred {nbrs : α → List α} {wk : α → Bool} {o p : α} {m : Nat}
    (h : IsDist nbrs wk o p (m + 1)) :
    ∃ q ∈ nbrs p, IsDist nbrs wk o q m := by
  obtain ⟨hr, hmin⟩ := h
  obtain ⟨hwk, q, hq, hrq⟩ := hr
  obtain ⟨m', hm', hd⟩ := reachN_exists_isDist hrq
  have : ReachN nbrs wk o (m' + 1) p := ⟨hwk, q, hq, hd.1⟩
  have hge : ¬ m' + 1 < m + 1 := fun hlt => hmin (m' + 1) hlt this
  have : m' = m := le_antisymm hm' (by omega)
  exact ⟨q, hq, this ▸ hd⟩

/-- For every distance value below an attained one there is a cell attaining it. -/
theorem exists_isDist_of_le {nbrs : α → List α} {wk : α → Bool} {o : α} {m : Nat} :
    ∀ {p : α}, IsDist nbrs wk o p m → ∀ k ≤ m, ∃ q, IsDist nbrs wk o q k := by
  induction m with
  | zero =>
      intro p h k hk
      interval_cases k
      exact ⟨p, h⟩
  | succ m ih =>
      intro p h k hk
      rcases Nat.eq_or_lt_of_le hk with rfl | hlt
      · exact ⟨p, h⟩
      · obtain ⟨q, _, hq⟩ := isDist_pred h
        exact ih hq k (by omega)

/-- Every cell at positive distance is on the walkability mask. -/
theorem isDist_wk {nbrs : α → List α} {wk : α → Bool} {o p : α} {m : Nat}
    (h : IsDist nbrs wk o p (m + 1)) : wk p = true := h.1.1

/-- Shortest-path distances are bounded by the number of walkable cells:
cells at distances `1, ..., m` are pairwise distinct and all walkable. -/
theorem isDist_le_card {nbrs : α → List α} {wk : α → Bool} {o p : α} {m : Nat}
    (cells : Finset α) (hwk : ∀ q, wk q = true → q ∈ cells)
    (h : IsDist nbrs wk o p m) : m ≤ cells.card := by
  have hex : ∀ i : Fin m, ∃ q, IsDist nbrs wk o q (i.val + 1) :=
    fun i => exists_isDist_of_le h (i.val + 1) i.isLt
  classical
  let f : Fin m → α := fun i => Classical.choose (hex i)
  have hf : ∀ i, IsDist nbrs wk o (f i) (i.val + 1) := fun i => Classical.choose_spec (hex i)
  have hmem : ∀ i : Fin m, i ∈ (Finset.univ : Finset (Fin m)) → f i ∈ cells := by
    intro i _
    exact hwk _ (isDist_wk (hf i))
  have hinj : Set.InjOn f ((Finset.univ : Finset (Fin m)) : Set (Fin m)) := by
    intro i _ j _ hij
    have := isDist_unique (hij ▸ hf i) (hf j)
    exact Fin.ext (by omega)
  have := Finset.card_le_card_of_injOn f hmem hinj
  simpa using this

/-- The freshly discovered cells are exactly those at distance `d + 1`. -/
theorem bfsNext_mem {nbrs : α → List α} {wk : α → Bool} {o : α}
    (hsym : ∀ p q, p ∈ nbrs q ↔ q ∈ nbrs p)
    {dists : List (α × Nat)} {frontier : List α} {d : Nat}
    (hA : ∀ p n, lookupD dists p = some n ↔ (n ≤ d ∧ IsDist nbrs wk o p n))
    (hF : ∀ p, p ∈ frontier ↔ IsDist nbrs wk o p d) :
    ∀ q, q ∈ bfsNext nbrs wk dists frontier ↔ IsDist nbrs wk o q (d + 1) := by
  intro q
  have hnone : lookupD dists q = none ↔ ∀ n, ¬ (n ≤ d ∧ IsDist nbrs wk o q n) := by
    constructor
    · intro h n hn
      rw [(hA q n).mpr hn] at h
      exact Option.noConfusion h
    · intro h
      cases hl : lookupD dists q with
      | none => rfl
      | some n => exact absurd ((hA q n).mp hl) (h n)
  rw [bfsNext, List.mem_dedup, List.mem_filter, List.mem_flatMap]
  constructor
  · rintro ⟨⟨f, hfmem, hqf⟩, hpred⟩
    rw [Bool.and_eq_true, Option.isNone_iff_eq_none] at hpred
    obtain ⟨hwkq, hlq⟩ := hpred
    have hnot : ∀ m ≤ d, ¬ ReachN nbrs wk o m q := by
      intro m hm hr
      obtain ⟨m', hm', hd'⟩ := reachN_exists_isDist hr
      exact (hnone.mp hlq m') ⟨le_trans hm' hm, hd'⟩
    have hreach : ReachN nbrs wk o (d + 1) q :=
      ⟨hwkq, f, (hsym f q).mpr hqf, ((hF f).mp hfmem).1⟩
    exact ⟨hreach, fun m hm => hnot m (by omega)⟩
  · rintro ⟨hreach, hmin⟩
    obtain ⟨hwkq, f, hfq, hrf⟩ := id hreach
    obtain ⟨m', hm', hdf⟩ := reachN_exists_isDist hrf
    have hm'd : m' = d := by
      rcases Nat.eq_or_lt_of_le hm' with h | h
      · exact h
      · exact absurd (⟨hwkq, f, hfq, hdf.1⟩ : ReachN nbrs wk o (m' + 1) q)
          (hmin (m' + 1) (by omega))
    refine ⟨⟨f, (hF f).mpr (hm'd ▸ hdf), (hsym q f).mpr hfq⟩, ?_⟩
    rw [Bool.and_eq_true, Option.isNone_iff_eq_none, hnone]
    refine ⟨hwkq, fun n hn => ?_⟩
    have := isDist_unique hn.2 ⟨hreach, hmin⟩
    omega

/-- Invariant-based correctness of the search loop. -/
theorem bfsGo_correct {nbrs : α → List α} {wk : α → Bool} {o : α} {B : Nat}
    (hsym : ∀ p q, p ∈ nbrs q ↔ q ∈ nbrs p)
    (hB : ∀ p m, IsDist nbrs wk o p m → m ≤ B) :
    ∀ (fuel : Nat) (dists : List (α × Nat)) (frontier : List α) (d : Nat),
      (∀ p n, lookupD dists p = some n ↔ (n ≤ d ∧ IsDist nbrs wk o p n)) →
      (∀ p, p ∈ frontier ↔ IsDist nbrs wk o p d) →
      frontier ≠ [] →
      B + 1 ≤ fuel + d →
      ∀ p n, lookupD (bfsGo nbrs wk fuel dists frontier d) p = some n ↔
        IsDist nbrs wk o p n := by
  intro fuel
  induction fuel with
  | zero =>
      intro dists frontier d hA hF hne hfd
      obtain ⟨f, hf⟩ := List.exists_mem_of_ne_nil frontier hne
      have := hB f d ((hF f).mp hf)
      omega
  | succ fuel ih =>
      intro dists frontier d hA hF hne hfd p n
      have hnext := bfsNext_mem hsym hA hF (o := o)
      rw [bfsGo]
      cases hcase : bfsNext nbrs wk dists frontier with
      | nil =>
          simp only []
          constructor
          · intro h
            exact ((hA p n).mp h).2
          · intro h
            rcases le_or_lt n d with hle | hgt
            · exact (hA p n).mpr ⟨hle, h⟩
            · exfalso
              obtain ⟨q, hq⟩ := exists_isDist_of_le h (d + 1) hgt
              have := (hnext q).mpr hq
              rw [hcase] at this
              exact List.not_mem_nil q this
      | cons a rest =>
          simp only []
          have hA' : ∀ p n,
              lookupD (dists ++ (a :: rest).map (fun c => (c, d + 1))) p = some n ↔
              (n ≤ d + 1 ∧ IsDist nbrs wk o p n) := by
            intro p n
            rw [lookupD_append]
            cases hl : lookupD dists p with
            | some m =>
                simp only []
                have hml := (hA p m).mp hl
                constructor
                · intro h
                  obtain rfl := Option.some.inj h
                  exact ⟨by have := hml.1; omega, hml.2⟩
                · rintro ⟨hn, hd'⟩
                  have hmn := isDist_unique hml.2 hd'
                  subst hmn
                  rfl
            | none =>
                simp only [lookupD_map_const]
                have hmem := hnext p
                rw [hcase] at hmem
                by_cases hp : p ∈ a :: rest
                · simp only [hp, if_pos]
                  constructor
                  · intro h
                    obtain rfl := Option.some.inj h
                    exact ⟨le_refl _, hmem.mp hp⟩
                  · rintro ⟨hn, hd'⟩
                    have hdn := isDist_unique (hmem.mp hp) hd'
                    subst hdn
                    rfl
                · simp only [hp, if_neg, not_false_iff]
                  constructor
                  · intro h
                    exact Option.noConfusion h
                  · rintro ⟨hn, hd'⟩
                    rcases Nat.eq_or_lt_of_le hn with rfl | hlt
                    · exact absurd (hmem.mpr hd') hp
                    · have : lookupD dists p = some n := (hA p n).mpr ⟨by omega, hd'⟩
                      rw [hl] at this
                      exact Option.noConfusion this
          have hF' : ∀ p, p ∈ a :: rest ↔ IsDist nbrs wk o p (d + 1) := by
            intro p
            have := hnext p
            rw [hcase] at this
            exact this
          exact ih _ _ _ hA' hF' (List.cons_ne_nil a rest) (by omega) p n

/-- The breadth-first search computes exactly the shortest-path distances. -/
theorem bfs_correct {nbrs : α → List α} {wk : α → Bool} {o : α} {B : Nat}
    (hsym : ∀ p q, p ∈ nbrs q ↔ q ∈ nbrs p)
    (hB : ∀ p m, IsDist nbrs wk o p m → m ≤ B)
    (fuel : Nat) (hfuel : B + 1 ≤ fuel) :
    ∀ p n, lookupD (bfs nbrs wk fuel o) p = some n ↔ IsDist nbrs wk o p n := by
  have hA : ∀ p n, lookupD [(o, (0 : Nat))] p = some n ↔
      (n ≤ 0 ∧ IsDist nbrs wk o p n) := by
    intro p n
    simp only [lookupD]
    by_cases h : p = o
    · subst h
      simp only [if_pos rfl]
      constructor
      · intro h
        obtain rfl := Option.some.inj h
        exact ⟨le_refl _, (rfl : ReachN nbrs wk p 0 p), fun m hm => absurd hm (Nat.not_lt_zero m)⟩
      · rintro ⟨hn, _⟩
        interval_cases n
        rfl
    · simp only [if_neg h]
      constructor
      · intro hc
        exact Option.noConfusion hc
      · rintro ⟨hn, hd', _⟩
        interval_cases n
        exact absurd hd' h
  have hF : ∀ p, p ∈ [o] ↔ IsDist nbrs wk o p 0 := by
    intro p
    simp only [List.mem_singleton]
    constructor
    · rintro rfl
      exact ⟨rfl, fun m hm => absurd hm (Nat.not_lt_zero m)⟩
    · rintro ⟨hd', _⟩
      exact hd'
  exact bfsGo_correct hsym hB fuel [(o, 0)] [o] 0 hA hF
    (List.cons_ne_nil o []) (by omega)

/-- `astar.find` fails exactly on unreachable targets. -/
theorem bfs_none_iff {nbrs : α → List α} {wk : α → Bool} {o : α} {B : Nat}
    (hsym : ∀ p q, p ∈ nbrs q ↔ q ∈ nbrs p)
    (hB : ∀ p m, IsDist nbrs wk o p m → m ≤ B)
    (fuel : Nat) (hfuel : B + 1 ≤ fuel) (p : α) :
    lookupD (bfs nbrs wk fuel o) p = none ↔ ¬ Reachable nbrs wk o p := by
  constructor
  · rintro h ⟨n, hn⟩
    obtain ⟨m, _, hm⟩ := reachN_exists_isDist hn
    rw [(bfs_correct hsym hB fuel hfuel p m).mpr hm] at h
    exact Option.noConfusion h
  · intro h
    cases hl : lookupD (bfs nbrs wk fuel o) p with
    | none => rfl
    | some n =>
        exact absurd ⟨n, ((bfs_correct hsym hB fuel hfuel p n).mp hl).1⟩ h

/-- Lookup into a list built by keeping, for each element of `l` on which `g`
succeeds, the pair of the element and `g`'s value (the shape of the
`ActionCircle::new` insertion loop). -/
theorem lookupD_filterMap (l : List α) (g : α → Option Nat) (p : α) :
    lookupD (l.filterMap fun a => (g a).map fun c => (a, c)) p =
      if p ∈ l then g p else none := by
  induction l with
  | nil => simp [lookupD]
  | cons a rest ih =>
      cases hga : g a with
      | some c =>
          by_cases h : p = a
          · subst h
            simp [lookupD, hga]
          · simp [lookupD, hga, h, ih]
      | none =>
          by_cases h : p = a
          · subst h
            simp only [List.filterMap_cons, hga, Option.map_none', ih, List.mem_cons,
              true_or, if_pos]
            by_cases hp : p ∈ rest <;> simp [hp, hga]
          · simp only [List.filterMap_cons, hga, Option.map_none', ih, List.mem_cons]
            simp [h]

end Search

/-! ## The modular library variant: `position.rs`, `board.rs`, `entity.rs`,
`action_circle.rs` -/

namespace Lib

/-- `position.rs`: `Position { x: i32, y: i32 }`. -/
structure Position where
  x : Int
  y : Int
deriving DecidableEq

instance : Add Position := ⟨fun a b => ⟨a.x + b.x, a.y + b.y⟩⟩

/-- `Position::manhatten_distance` (source spelling kept):
`((self.x - other.x).abs() + (self.y - other.y).abs()) as u32`. -/
def Position.manhatten_distance (self other : Position) : Nat :=
  (self.x - other.x).natAbs + (self.y - other.y).natAbs

/-- The inclusive integer range `lo..=hi` of a Rust `for` loop. -/
def intRange (lo hi : Int) : List Int :=
  (List.range (hi + 1 - lo).toNat).map fun k : Nat => lo + (k : Int)

/-- `Position::radius`: the double loop over offsets `-radius..=radius`,
skipping `(0, 0)` and keeping offsets of Manhattan distance `≤ radius`.
(The loop is empty for negative `radius`, so the `radius as u32` cast in the
comparison is only ever taken on non-negative values.) -/
def Position.radius (self : Position) (radius : Int) : List Position :=
  (intRange (-radius) radius).flatMap fun y =>
    (intRange (-radius) radius).filterMap fun x =>
      if x = 0 ∧ y = 0 then none
      else
        let new_position := self + ⟨x, y⟩
        if (self.manhatten_distance new_position : Int) ≤ radius then some new_position
        else none

/-- Cardinal neighbours of a cell; `tcod`'s `AStar::new_from_map(map, 0.0)`
disables diagonal movement, so paths step north/east/south/west. -/
def Position.nbrs (p : Position) : List Position :=
  [⟨p.x, p.y - 1⟩, ⟨p.x + 1, p.y⟩, ⟨p.x, p.y + 1⟩, ⟨p.x - 1, p.y⟩]

/-- `board.rs`: `Dimension { width: u32, height: u32 }`. -/
structure Dimension where
  width : Nat
  height : Nat
deriving DecidableEq

def Dimension.area (d : Dimension) : Nat :=
  d.width * d.height

/-- The `tcod::colors` constants used by the sources, abstracted to names. -/
inductive ColorTag
  | darkGrey
  | black
  | darkerBlue
  | darkestBlue
  | red
  | blue
  | green
  | yellow
  | white
deriving DecidableEq

inductive Traverse
  | Ground
  | Water
  | Wall
deriving DecidableEq

inductive TileKind
  | Floor
  | Wall
  | Ocean
deriving DecidableEq

structure Tile where
  traverse : Traverse
  fore_color : ColorTag
  back_color : ColorTag
  glyph : Char
deriving DecidableEq

def Tile.new : TileKind → Tile
  | TileKind.Floor =>
    { traverse := Traverse.Ground, fore_color := ColorTag.darkGrey,
      back_color := ColorTag.black, glyph := '.' }
  | TileKind.Wall =>
    { traverse := Traverse.Wall, fore_color := ColorTag.darkGrey,
      back_color := ColorTag.darkGrey, glyph := ' ' }
  | TileKind.Ocean =>
    { traverse := Traverse.Water, fore_color := ColorTag.darkerBlue,
      back_color := ColorTag.darkestBlue, glyph := '~' }

def Tile.is_ground (t : Tile) : Bool := t.traverse = Traverse.Ground

def Tile.is_water (t : Tile) : Bool := t.traverse = Traverse.Water

def Tile.is_wall (t : Tile) : Bool := t.traverse = Traverse.Wall

/-- `entity.rs`: `Team`. -/
inductive Team
  | Red
  | Blue
  | Green
  | Yellow
  | White
deriving DecidableEq

/-- `entity.rs`: `Space`. -/
inductive Space
  | Ground
  | Water
  | Air
deriving DecidableEq

/-- `Space::can_traverse`: the compatibility matrix, every `Wall` pair falling
through to the `(_, _) => false` arm. -/
def Space.can_traverse (self : Space) (traverse : Traverse) : Bool :=
  match self, traverse with
  | Space.Ground, Traverse.Ground => true
  | Space.Ground, Traverse.Water => false
  | Space.Water, Traverse.Ground => false
  | Space.Water, Traverse.Water => true
  | Space.Air, Traverse.Ground => true
  | Space.Air, Traverse.Water => true
  | _, _ => false

/-- `entity.rs`: `UnitKind`. -/
inductive UnitKind
  | Unknown
  | Engineer
  | Infantry
  | Humvee
  | Tank
  | Missile
  | Flag
deriving DecidableEq

structure UnitBuilder where
  kind : UnitKind
  team : Team
  name : String
  glyph : Char
  space : Space
  health : Nat
  damage : Nat
  range : Nat
  actions : Nat
  position : Position
deriving DecidableEq

def UnitBuilder.new : UnitBuilder :=
  { kind := UnitKind.Unknown, team := Team.White, name := "No Name", glyph := '?',
    space := Space.Ground, health := 1, damage := 1, range := 1, actions := 1,
    position := ⟨0, 0⟩ }

def UnitBuilder.with_kind (b : UnitBuilder) (kind : UnitKind) : UnitBuilder :=
  { b with kind := kind }

def UnitBuilder.with_team (b : UnitBuilder) (team : Team) : UnitBuilder :=
  { b with team := team }

def UnitBuilder.with_name (b : UnitBuilder) (name : String) : UnitBuilder :=
  { b with name := name }

def UnitBuilder.with_glyph (b : UnitBuilder) (glyph : Char) : UnitBuilder :=
  { b with glyph := glyph }

def UnitBuilder.with_space (b : UnitBuilder) (space : Space) : UnitBuilder :=
  { b with space := space }

def UnitBuilder.with_health (b : UnitBuilder) (health : Nat) : UnitBuilder :=
  { b with health := health }

def UnitBuilder.with_damage (b : UnitBuilder) (damage : Nat) : UnitBuilder :=
  { b with damage := damage }

def UnitBuilder.with_range (b : UnitBuilder) (range : Nat) : UnitBuilder :=
  { b with range := range }

def UnitBuilder.with_actions (b : UnitBuilder) (actions : Nat) : UnitBuilder :=
  { b with actions := actions }

def UnitBuilder.with_position (b : UnitBuilder) (position : Position) : UnitBuilder :=
  { b with position := position }

structure Unit where
  kind : UnitKind
  team : Team
  name : String
  glyph : Char
  space : Space
  health : Nat
  health_max : Nat
  damage : Nat
  range : Nat
  actions : Nat
  actions_max : Nat
  position : Position
deriving DecidableEq

/-- `UnitBuilder::build`: `health_max`/`actions_max` are copied from the
builder's `health`/`actions`. -/
def UnitBuilder.build (self : UnitBuilder) : Unit :=
  { kind := self.kind, team := self.team, name := self.name, glyph := self.glyph,
    space := self.space, health := self.health, health_max := self.health,
    damage := self.damage, range := self.range, actions := self.actions,
    actions_max := self.actions, position := self.position }

/-- `Unit::new`; the `UnitKind::Unknown` arm is a `panic!` in the source,
modelled as `none`. -/
def Unit.new (kind : UnitKind) (team : Team) (position : Position) : Option Unit :=
  let builder := ((UnitBuilder.new.with_kind kind).with_team team).with_position position
  match kind with
  | UnitKind.Unknown => none
  | UnitKind.Engineer =>
      some (((((((builder.with_name "Engineer").with_glyph '\u0080').with_space
        Space.Ground).with_health 1).with_damage 1).with_range 1).with_actions 2).build
  | UnitKind.Infantry =>
      some (((((((builder.with_name "Infantry").with_glyph '\u0081').with_space
        Space.Ground).with_health 2).with_damage 1).with_range 1).with_actions 2).build
  | UnitKind.Humvee =>
      some (((((((builder.with_name "Humvee").with_glyph '\u0083').with_space
        Space.Ground).with_health 3).with_damage 1).with_range 1).with_actions 3).build
  | UnitKind.Tank =>
      some (((((((builder.with_name "Tank").with_glyph '\u0085').with_space
        Space.Ground).with_health 4).with_damage 2).with_range 3).with_actions 2).build
  | UnitKind.Missile =>
      some (((((((builder.with_name "Missile").with_glyph '\u0082').with_space
        Space.Air).with_health 3).with_damage 10).with_range 3).with_actions 3).build
  | UnitKind.Flag =>
      some (((((((builder.with_name "Flag").with_glyph '\u0084').with_space
        Space.Ground).with_health 1).with_damage 0).with_range 0).with_actions 1).build

/-- `board.rs`: `Board`; entity handles (`generational_arena::Index`) are
abstracted to `Nat`. -/
structure Board where
  size : Dimension
  tiles : List Tile
  entities : List (Option Nat)
deriving DecidableEq

/-- `Board::new`: `Floor` everywhere, then the outer perimeter overwritten
with `Wall` by the two loops. -/
def Board.new (size : Dimension) : Board :=
  let tiles0 := List.replicate size.area (Tile.new TileKind.Floor)
  let tiles1 := (List.range size.width).foldl
    (fun ts x =>
      (ts.set x (Tile.new TileKind.Wall)).set
        (x + size.width * (size.height - 1)) (Tile.new TileKind.Wall))
    tiles0
  let tiles2 := (List.range size.height).foldl
    (fun ts y =>
      (ts.set (size.width * y) (Tile.new TileKind.Wall)).set
        (size.width - 1 + size.width * y) (Tile.new TileKind.Wall))
    tiles1
  { size := size, tiles := tiles2,
    entities := List.replicate size.area none }

/-- `Board::to_index`: note that only the *linearised* index is range
checked (`index >= 0 && index < self.tiles.len()`), not the coordinates. -/
def Board.to_index (b : Board) (position : Position) : Option Nat :=
  let index := position.x + position.y * (b.size.width : Int)
  if 0 ≤ index ∧ index < (b.tiles.length : Int) then some index.toNat else none

def Board.in_bounds (b : Board) (position : Position) : Bool :=
  decide (0 ≤ position.x) && decide (position.x < (b.size.width : Int)) &&
  decide (0 ≤ position.y) && decide (position.y < (b.size.height : Int))

def Board.tile_at (b : Board) (position : Position) : Option Tile :=
  match b.to_index position with
  | some index => b.tiles[index]?
  | none => none

/-- `Board::entity_at`; `self.entities[index]` would panic in Rust were
`entities` shorter than `tiles` (never the case for constructed boards),
modelled by the `Option.join`. -/
def Board.entity_at (b : Board) (position : Position) : Option Nat :=
  match b.to_index position with
  | some index => b.entities[index]?.join
  | none => none

/-- The per-cell walkability of `Board::navigation_map(space)`: cells of the
`width × height` map are walkable when the tile's traverse class passes the
`Space` filter (`None` ⇒ only `Wall` blocks); everything off the map is not
walkable. -/
def Board.navWalk (b : Board) (space : Option Space) (p : Position) : Bool :=
  b.in_bounds p &&
    (match b.tile_at p with
     | some tile =>
        (match space with
         | some s => s.can_traverse tile.traverse
         | none => !tile.is_wall)
     | none => false)

/-- One `AStar::new_from_map(board.navigation_map(space), 0.0)` search from
`origin`, modelled by the verified BFS. -/
def Board.astar (b : Board) (space : Option Space) (origin : Position) :
    List (Position × Nat) :=
  Search.bfs Position.nbrs (b.navWalk space) (b.size.area + 1) origin

/-- `action_circle.rs`: `ActionCircle` (the `HashMap` as an association list). -/
structure ActionCircle where
  positions : List (Position × Nat)

/-- `ActionCircle::new`: for every position of `origin.radius(range)` that is
in bounds and reachable (`astar.find`), insert it with its path length
(`astar.walk().count()`). -/
def ActionCircle.new (origin : Position) (range : Nat) (space : Option Space)
    (board : Board) : ActionCircle :=
  let astar := board.astar space origin
  { positions :=
      (origin.radius (range : Int)).filterMap fun position =>
        (if board.in_bounds position then Search.lookupD astar position
         else none).map fun cost => (position, cost) }

/-- `ActionCircle::contains`. -/
def ActionCircle.contains (self : ActionCircle) (position : Position) : Bool :=
  (Search.lookupD self.positions position).isSome

/-- `ActionCircle::cost_to`. -/
def ActionCircle.cost_to (self : ActionCircle) (position : Position) : Option Nat :=
  Search.lookupD self.positions position

theorem Position.add_def (a b : Position) : a + b = ⟨a.x + b.x, a.y + b.y⟩ := rfl

theorem Position.x_mk (x y : Int) : (Position.mk x y).x = x := rfl

theorem Position.y_mk (x y : Int) : (Position.mk x y).y = y := rfl

theorem mem_intRange {lo hi z : Int} : z ∈ intRange lo hi ↔ lo ≤ z ∧ z ≤ hi := by
  simp only [intRange, List.mem_map, List.mem_range]
  constructor
  · rintro ⟨k, hk, rfl⟩
    omega
  · rintro ⟨h1, h2⟩
    exact ⟨(z - lo).toNat, by omega, by omega⟩

theorem manhatten_self_add (o : Position) (x y : Int) :
    o.manhatten_distance (o + ⟨x, y⟩) = x.natAbs + y.natAbs := by
  simp only [Position.manhatten_distance, Position.add_def]
  omega

/-- `radius` enumerates exactly the annulus of Manhattan distances `1..=r`. -/
theorem mem_radius (o : Position) (r : Int) (hr : 0 ≤ r) (p : Position) :
    p ∈ o.radius r ↔
      1 ≤ o.manhatten_distance p ∧ (o.manhatten_distance p : Int) ≤ r := by
  simp only [Position.radius, List.mem_flatMap, List.mem_filterMap, mem_intRange]
  constructor
  · rintro ⟨y, hy, x, hx, hcond⟩
    by_cases h0 : x = 0 ∧ y = 0
    · rw [if_pos h0] at hcond
      exact absurd hcond (by simp)
    · rw [if_neg h0] at hcond
      by_cases hd : (o.manhatten_distance (o + ⟨x, y⟩) : Int) ≤ r
      · rw [if_pos hd] at hcond
        obtain rfl := Option.some.inj hcond
        rw [manhatten_self_add] at hd ⊢
        exact ⟨by omega, hd⟩
      · rw [if_neg hd] at hcond
        exact absurd hcond (by simp)
  · rintro ⟨h1, h2⟩
    refine ⟨p.y - o.y, ?_, p.x - o.x, ?_, ?_⟩
    · simp only [Position.manhatten_distance] at h2
      omega
    · simp only [Position.manhatten_distance] at h2
      omega
    · have hpe : o + (⟨p.x - o.x, p.y - o.y⟩ : Position) = p := by
        rw [Position.add_def]
        cases p
        simp only [Position.x_mk, Position.y_mk, Position.mk.injEq]
        constructor <;> ring
      have h0 : ¬ (p.x - o.x = 0 ∧ p.y - o.y = 0) := by
        simp only [Position.manhatten_distance] at h1
        omega
      have hd : (o.manhatten_distance (o + ⟨p.x - o.x, p.y - o.y⟩) : Int) ≤ r := by
        rw [hpe]
        exact h2
      rw [if_neg h0, if_pos hd, hpe]

theorem nbrs_symm (p q : Position) : p ∈ Position.nbrs q ↔ q ∈ Position.nbrs p := by
  cases p
  cases q
  simp only [Position.nbrs, List.mem_cons, List.not_mem_nil, or_false, Position.mk.injEq]
  omega

/-- The in-bounds cells of a `width × height` board as a finite set. -/
def boardCells (w h : Nat) : Finset Position :=
  (Finset.range w ×ˢ Finset.range h).image fun q => ⟨(q.1 : Int), (q.2 : Int)⟩

theorem mem_boardCells {w h : Nat} {p : Position} :
    p ∈ boardCells w h ↔ 0 ≤ p.x ∧ p.x < (w : Int) ∧ 0 ≤ p.y ∧ p.y < (h : Int) := by
  simp only [boardCells, Finset.mem_image, Finset.mem_product, Finset.mem_range, Prod.exists]
  constructor
  · rintro ⟨a, b, ⟨ha, hb⟩, rfl⟩
    simp only
    omega
  · rintro ⟨h1, h2, h3, h4⟩
    refine ⟨p.x.toNat, p.y.toNat, ⟨by omega, by omega⟩, ?_⟩
    cases p
    simp only at h1 h2 h3 h4
    simp only [Position.mk.injEq]
    omega

theorem card_boardCells (w h : Nat) : (boardCells w h).card = w * h := by
  have hinj : Function.Injective
      (fun q : Nat × Nat => (⟨(q.1 : Int), (q.2 : Int)⟩ : Position)) := by
    rintro ⟨a1, a2⟩ ⟨b1, b2⟩ h
    simp only [Position.mk.injEq, Nat.cast_inj] at h
    rw [Prod.mk.injEq]
    exact h
  rw [boardCells, Finset.card_image_of_injective _ hinj, Finset.card_product,
    Finset.card_range, Finset.card_range]

theorem navWalk_mem_cells (b : Board) (sp : Option Space) (p : Position)
    (h : b.navWalk sp p = true) : p ∈ boardCells b.size.width b.size.height := by
  rw [Board.navWalk, Bool.and_eq_true] at h
  have hin := h.1
  rw [Board.in_bounds] at hin
  simp only [Bool.and_eq_true, decide_eq_true_eq] at hin
  rw [mem_boardCells]
  exact ⟨hin.1.1.1, hin.1.1.2, hin.1.2, hin.2⟩

theorem isDist_nav_le (b : Board) (sp : Option Space) (o p : Position) (m : Nat)
    (h : Search.IsDist Position.nbrs (b.navWalk sp) o p m) : m ≤ b.size.area := by
  have := Search.isDist_le_card (boardCells b.size.width b.size.height)
    (fun q hq => navWalk_mem_cells b sp q hq) h
  rwa [card_boardCells] at this

/-- The modelled `astar.find`/`walk().count()` returns exactly the shortest-path
distances on the navigation map. -/
theorem astar_correct (b : Board) (sp : Option Space) (o p : Position) (n : Nat) :
    Search.lookupD (b.astar sp o) p = some n ↔
      Search.IsDist Position.nbrs (b.navWalk sp) o p n :=
  Search.bfs_correct nbrs_symm (fun q m h => isDist_nav_le b sp o q m h)
    (b.size.area + 1) (le_refl _) p n

theorem astar_none (b : Board) (sp : Option Space) (o p : Position) :
    Search.lookupD (b.astar sp o) p = none ↔
      ¬ Search.Reachable Position.nbrs (b.navWalk sp) o p :=
  Search.bfs_none_iff nbrs_symm (fun q m h => isDist_nav_le b sp o q m h)
    (b.size.area + 1) (le_refl _) p

/-- Full characterisation of the Action Circle as built by the code: it holds
exactly the in-bounds cells of the Manhattan annulus `1..=range` around the
origin that are reachable under the navigation mask, each with its exact
shortest-path cost — with no cutoff of costs above the budget. -/
theorem cost_to_circle (origin : Position) (range : Nat) (space : Option Space)
    (b : Board) (p : Position) (c : Nat) :
    (ActionCircle.new origin range space b).cost_to p = some c ↔
      (1 ≤ origin.manhatten_distance p ∧
       (origin.manhatten_distance p : Int) ≤ (range : Int) ∧
       b.in_bounds p = true ∧
       Search.IsDist Position.nbrs (b.navWalk space) origin p c) := by
  rw [ActionCircle.cost_to, ActionCircle.new]
  simp only []
  rw [Search.lookupD_filterMap]
  have hrad := mem_radius origin (range : Int) (Int.natCast_nonneg range) p
  by_cases hp : p ∈ origin.radius (range : Int)
  · rw [if_pos hp]
    obtain ⟨hd1, hd2⟩ := hrad.mp hp
    by_cases hb : b.in_bounds p
    · rw [if_pos hb, astar_correct]
      constructor
      · intro h
        exact ⟨hd1, hd2, hb, h⟩
      · intro h
        exact h.2.2.2
    · rw [if_neg hb]
      constructor
      · intro h
        exact Option.noConfusion h
      · intro h
        exact absurd h.2.2.1 hb
  · rw [if_neg hp]
    constructor
    · intro h
      exact Option.noConfusion h
    · intro h
      exact absurd (hrad.mpr ⟨h.1, h.2.1⟩) hp

/-- The irregular 5×5 board of the C1 failing input: a `Board::new` board with
one extra interior wall written at `(1, 2)` (index 11). -/
def cxBoard : Board :=
  let b := Board.new ⟨5, 5⟩
  { b with tiles := b.tiles.set 11 (Tile.new TileKind.Wall) }

/-- C1: the claim states the Action Circle "contains no cell whose true
shortest-path cost exceeds the budget".  On the failing input — origin
`(1, 1)`, budget `2`, no Space filter, a 5×5 walled board with an extra wall
at `(1, 2)` — the circle produced by `ActionCircle::new` contains `(1, 3)`
(Manhattan distance 2) with exact path cost 4 > 2: the code never compares
`astar.walk().count()` against the budget. -/
theorem C1_action_circle_includes_cell_beyond_budget :
    (ActionCircle.new ⟨1, 1⟩ 2 none cxBoard).contains ⟨1, 3⟩ = true ∧
    (ActionCircle.new ⟨1, 1⟩ 2 none cxBoard).cost_to ⟨1, 3⟩ = some 4 ∧
    Search.IsDist Position.nbrs (cxBoard.navWalk none) ⟨1, 1⟩ ⟨1, 3⟩ 4 := by
  decide

/-- C2: out-of-bounds access does not generally return "not found":
`to_index` only range-checks the linearised index, so on a `Board::new(4×4)`
board the out-of-rectangle position `(5, 0)` aliases index 5 = cell `(1, 1)`
and `tile_at`/`entity_at` return that cell's entries. -/
theorem C2_out_of_bounds_access_aliases :
    (Board.new ⟨4, 4⟩).in_bounds ⟨5, 0⟩ = false ∧
    (Board.new ⟨4, 4⟩).tile_at ⟨5, 0⟩ = some (Tile.new TileKind.Floor) ∧
    ({ Board.new ⟨4, 4⟩ with
        entities := (Board.new ⟨4, 4⟩).entities.set 5 (some 7) } : Board).entity_at
      ⟨5, 0⟩ = some 7 := by
  decide

/-- C9: for every origin and every `r ≥ 0`, `radius(origin, r)` produces
exactly the positions whose Manhattan distance to the origin lies in `[1, r]`;
the origin itself is never included. -/
theorem C9_radius_is_manhattan_annulus (origin : Position) (r : Int) (hr : 0 ≤ r)
    (p : Position) :
    p ∈ origin.radius r ↔
      1 ≤ origin.manhatten_distance p ∧ (origin.manhatten_distance p : Int) ≤ r :=
  mem_radius origin r hr p

theorem C9_radius_is_manhattan_annulus_witness :
    (0 : Int) ≤ 3 ∧
      ((⟨2, 1⟩ : Position) ∈ (⟨0, 0⟩ : Position).radius 3 ↔
        1 ≤ (⟨0, 0⟩ : Position).manhatten_distance ⟨2, 1⟩ ∧
        ((⟨0, 0⟩ : Position).manhatten_distance ⟨2, 1⟩ : Int) ≤ 3) :=
  ⟨by decide, C9_radius_is_manhattan_annulus ⟨0, 0⟩ 3 (by decide) ⟨2, 1⟩⟩

/-- C10: `Unit::new` panics (modelled: returns `none`) exactly on
`UnitKind::Unknown`; for every other kind it returns a unit with
`health = health_max`, `actions = actions_max`, and the requested position,
kind and team. -/
theorem C10_unit_new_full_stats :
    (∀ (t : Team) (p : Position), Unit.new UnitKind.Unknown t p = none) ∧
    (∀ (k : UnitKind) (t : Team) (p : Position), k ≠ UnitKind.Unknown →
      ∃ u, Unit.new k t p = some u ∧ u.health = u.health_max ∧
        u.actions = u.actions_max ∧ u.position = p ∧ u.kind = k ∧ u.team = t) := by
  refine ⟨fun t p => rfl, fun k t p hk => ?_⟩
  cases k
  · exact absurd rfl hk
  all_goals exact ⟨_, rfl, rfl, rfl, rfl, rfl, rfl⟩

theorem C10_unit_new_full_stats_witness :
    UnitKind.Tank ≠ UnitKind.Unknown ∧
    ∃ u, Unit.new UnitKind.Tank Team.Red ⟨3, 4⟩ = some u ∧ u.health = u.health_max ∧
      u.actions = u.actions_max ∧ u.position = ⟨3, 4⟩ ∧ u.kind = UnitKind.Tank ∧
      u.team = Team.Red :=
  ⟨by decide, C10_unit_new_full_stats.2 UnitKind.Tank Team.Red ⟨3, 4⟩ (by decide)⟩

end Lib

/-- Equality of `Result`-typed returns is decidable (used to evaluate the
counterexamples). -/
instance {e a : Type} [DecidableEq e] [DecidableEq a] : DecidableEq (Except e a) :=
  fun x y =>
    match x, y with
    | Except.error e1, Except.error e2 =>
        if h : e1 = e2 then isTrue (by rw [h]) else isFalse (fun hc => h (Except.error.inj hc))
    | Except.error _, Except.ok _ => isFalse (fun hc => Except.noConfusion hc)
    | Except.ok _, Except.error _ => isFalse (fun hc => Except.noConfusion hc)
    | Except.ok a1, Except.ok a2 =>
        if h : a1 = a2 then isTrue (by rw [h]) else isFalse (fun hc => h (Except.ok.inj hc))

instance : DecidableEq PUnit.{1} := fun _ _ => isTrue rfl

/-! ## The `main.rs` prototype variant -/

namespace Game

/-- `main.rs`: `Vec2 { x: i32, y: i32 }`. -/
structure Vec2 where
  x : Int
  y : Int
deriving DecidableEq

instance : Add Vec2 := ⟨fun a b => ⟨a.x + b.x, a.y + b.y⟩⟩

/-- `Vec2::square_distance_to`: in spite of its name, the Manhattan distance
`|dx| + |dy|` (as an `i32`). -/
def Vec2.square_distance_to (self other : Vec2) : Int :=
  (other.x - self.x).natAbs + (other.y - self.y).natAbs

/-- Cardinal neighbours (the `tcod` A* with diagonal cost `0.0` moves
north/east/south/west only). -/
def Vec2.nbrs (p : Vec2) : List Vec2 :=
  [⟨p.x, p.y - 1⟩, ⟨p.x + 1, p.y⟩, ⟨p.x, p.y + 1⟩, ⟨p.x - 1, p.y⟩]

inductive UnitKind
  | Engineer
  | Infantry
  | Missile
  | Humvee
  | Flag
  | Tank
deriving DecidableEq

inductive Space
  | Ground
  | Naval
  | Air
deriving DecidableEq

inductive Traverse
  | Ground
  | Water
  | Wall
deriving DecidableEq

/-- `main.rs` `Space::can_traverse` (identical matrix to the library variant,
with `Naval` in place of `Water`). -/
def Space.can_traverse (self : Space) (traverse : Traverse) : Bool :=
  match self, traverse with
  | Space.Ground, Traverse.Ground => true
  | Space.Ground, Traverse.Water => false
  | Space.Naval, Traverse.Ground => false
  | Space.Naval, Traverse.Water => true
  | Space.Air, Traverse.Ground => true
  | Space.Air, Traverse.Water => true
  | _, _ => false

inductive Team
  | Red
  | Blue
  | Green
  | Yellow
deriving DecidableEq

/-- `main.rs`: `Unit` (healths and damage are `i32` in this variant). -/
structure Unit where
  kind : UnitKind
  space : Space
  team : Team
  glyph : Char
  id : Nat
  position : Vec2
  health : Int
  health_max : Int
  damage : Int
  speed : Int
  missile : Bool
deriving DecidableEq

/-- `main.rs` `Unit::new`. -/
def Unit.new (id : Nat) (position : Vec2) (kind : UnitKind) (team : Team) : Unit :=
  match kind with
  | UnitKind.Engineer =>
    { kind := UnitKind.Engineer, space := Space.Ground, team := team, glyph := '\u0080',
      id := id, position := position, health := 1, health_max := 1, damage := 1,
      speed := 2, missile := false }
  | UnitKind.Infantry =>
    { kind := UnitKind.Infantry, space := Space.Ground, team := team, glyph := '\u0081',
      id := id, position := position, health := 2, health_max := 2, damage := 1,
      speed := 2, missile := false }
  | UnitKind.Missile =>
    { kind := UnitKind.Missile, space := Space.Air, team := team, glyph := '\u0082',
      id := id, position := position, health := 3, health_max := 3, damage := 5,
      speed := 3, missile := true }
  | UnitKind.Humvee =>
    { kind := UnitKind.Humvee, space := Space.Ground, team := team, glyph := '\u0083',
      id := id, position := position, health := 3, health_max := 3, damage := 1,
      speed := 3, missile := false }
  | UnitKind.Flag =>
    { kind := UnitKind.Flag, space := Space.Ground, team := team, glyph := '\u0084',
      id := id, position := position, health := 1, health_max := 1, damage := 0,
      speed := 0, missile := false }
  | UnitKind.Tank =>
    { kind := UnitKind.Tank, space := Space.Ground, team := team, glyph := '\u0085',
      id := id, position := position, health := 4, health_max := 4, damage := 2,
      speed := 2, missile := false }

inductive TileKind
  | Floor
  | Wall
  | Ocean
deriving DecidableEq

structure Tile where
  traverse : Traverse
  fore_color : Lib.ColorTag
  back_color : Lib.ColorTag
  glyph : Char
deriving DecidableEq

def Tile.new : TileKind → Tile
  | TileKind.Floor =>
    { traverse := Traverse.Ground, fore_color := Lib.ColorTag.darkGrey,
      back_color := Lib.ColorTag.black, glyph := '.' }
  | TileKind.Wall =>
    { traverse := Traverse.Wall, fore_color := Lib.ColorTag.darkGrey,
      back_color := Lib.ColorTag.darkGrey, glyph := ' ' }
  | TileKind.Ocean =>
    { traverse := Traverse.Water, fore_color := Lib.ColorTag.darkerBlue,
      back_color := Lib.ColorTag.darkestBlue, glyph := '~' }

inductive SpawnError
  | InvalidPosition
  | IncompatibleTerrain
  | SpaceOccupied
deriving DecidableEq

inductive DamageError
  | InvalidPosition
deriving DecidableEq

inductive WarpError
  | InvalidSelection
  | InvalidPosition
  | IncompatibleTerrain
  | SpaceOccupied
deriving DecidableEq

inductive MoveError
  | InvalidSelection
  | InvalidPosition
  | IncompatibleTerrain
  | DestinationNotReachable
  | SpaceOccupied
deriving DecidableEq

/-- `main.rs`: `Board { width, height, tiles, spaces, units }`: `spaces` maps
each cell to the occupying unit's index into `units`, if any. -/
structure Board where
  width : Nat
  height : Nat
  tiles : List Tile
  spaces : List (Option Nat)
  units : List Unit
deriving DecidableEq

/-- `main.rs` `Board::new`: floor everywhere, walls on the perimeter. -/
def Board.new (width height : Nat) : Board :=
  let tiles0 := List.replicate (width * height) (Tile.new TileKind.Floor)
  let tiles1 := (List.range width).foldl
    (fun ts x =>
      (ts.set x (Tile.new TileKind.Wall)).set
        (x + width * (height - 1)) (Tile.new TileKind.Wall))
    tiles0
  let tiles2 := (List.range height).foldl
    (fun ts y =>
      (ts.set (width * y) (Tile.new TileKind.Wall)).set
        (width - 1 + width * y) (Tile.new TileKind.Wall))
    tiles1
  { width := width, height := height, tiles := tiles2,
    spaces := List.replicate (width * height) none, units := [] }

def Board.in_bounds (b : Board) (pos : Vec2) : Bool :=
  decide (0 ≤ pos.x) && decide (pos.x < (b.width : Int)) &&
  decide (0 ≤ pos.y) && decide (pos.y < (b.height : Int))

/-- `main.rs` `Board::to_index` returns `(x + y * width) as usize` with no
check at all.  The `as usize` cast turns negative values into huge indices on
which every later `Vec` access would panic; the development only ever reasons
about call sites guarded by `in_bounds`/`get_tile`, where the cast is the
identity, so the clamping `Int.toNat` is an adequate model. -/
def Board.to_index (b : Board) (pos : Vec2) : Nat :=
  (pos.x + pos.y * (b.width : Int)).toNat

def Board.get_tile (b : Board) (pos : Vec2) : Option Tile :=
  if b.in_bounds pos then b.tiles[b.to_index pos]? else none

/-- `main.rs` `Board::unit_at`; the out-of-range arm models the
`spaces.get(index).unwrap()` panic, unreachable at the guarded call sites. -/
def Board.unit_at (b : Board) (position : Vec2) : Option Unit :=
  match b.spaces[b.to_index position]? with
  | some (some id) => b.units[id]?
  | some none => none
  | none => none

/-- `main.rs` `Board::spawn`. -/
def Board.spawn (b : Board) (position : Vec2) (kind : UnitKind) (team : Team) :
    Board × Except SpawnError Nat :=
  let id := b.units.length
  let index := b.to_index position
  let unit := Unit.new id position kind team
  match b.get_tile position with
  | none => (b, Except.error SpawnError.InvalidPosition)
  | some tile =>
    if ¬ unit.space.can_traverse tile.traverse then
      (b, Except.error SpawnError.IncompatibleTerrain)
    else
      match b.spaces[index]? with
      | some (some _) => (b, Except.error SpawnError.SpaceOccupied)
      | _ =>
        ({ b with units := b.units ++ [unit], spaces := b.spaces.set index (some id) },
         Except.ok id)

/-- The per-cell walkability of `main.rs` `Board::navigation_map(space)`. -/
def Board.navWalk (b : Board) (space : Space) (p : Vec2) : Bool :=
  b.in_bounds p &&
    (match b.get_tile p with
     | some tile => space.can_traverse tile.traverse
     | none => false)

structure Damage where
  team : Team
  amount : Int
  at' : Vec2
deriving DecidableEq

structure Warp where
  unit : Nat
  to' : Vec2
deriving DecidableEq

structure Move where
  unit : Nat
  to' : Vec2
deriving DecidableEq

/-- `main.rs` `do_damage`: only opposing-team occupants are damaged
(`health = max(health - amount, 0)`); a kill clears the cell's occupancy.
Returns whether the target was killed. -/
def do_damage (board : Board) (damage : Damage) : Board × Except DamageError Bool :=
  if ¬ board.in_bounds damage.at' then
    (board, Except.error DamageError.InvalidPosition)
  else
    let index := board.to_index damage.at'
    match board.spaces[index]? with
    | some (some id) =>
      match board.units[id]? with
      | some u =>
        if u.team ≠ damage.team then
          let health' := max (u.health - damage.amount) 0
          let b' := { board with units := board.units.set id { u with health := health' } }
          if health' = 0 then
            ({ b' with spaces := b'.spaces.set index none }, Except.ok true)
          else
            (b', Except.ok false)
        else
          (board, Except.ok false)
      | none => (board, Except.ok false)
    | some none => (board, Except.ok false)
    | none => (board, Except.ok false)

/-- `main.rs` `do_warp`. -/
def do_warp (board : Board) (warp : Warp) : Board × Except WarpError PUnit.{1} :=
  match board.units[warp.unit]? with
  | none => (board, Except.error WarpError.InvalidSelection)
  | some u =>
    match board.get_tile warp.to' with
    | none => (board, Except.error WarpError.InvalidPosition)
    | some tile =>
      if ¬ u.space.can_traverse tile.traverse then
        (board, Except.error WarpError.IncompatibleTerrain)
      else if (board.unit_at warp.to').isSome then
        (board, Except.error WarpError.SpaceOccupied)
      else
        let i := board.to_index u.position
        let j := board.to_index warp.to'
        ({ board with
            spaces := (board.spaces.set i none).set j (some warp.unit),
            units := board.units.set warp.unit { u with position := warp.to' } },
         Except.ok PUnit.unit)

/-- The `for pos in astar.walk()` loop of `do_move`: walk towards the target
until a unit is in the way; returns the final `(destination,
before_destination)`. -/
def walk_loop (board : Board) : List Vec2 → Vec2 → Vec2 → Vec2 × Vec2
  | [], destination, before => (destination, before)
  | pos :: rest, destination, before =>
    if (board.unit_at pos).isSome then (pos, before)
    else walk_loop board rest destination pos

/-- `main.rs` `do_move`: find a path (no budget bound), walk it up to the first
occupied cell, apply the unit's damage there, then warp — to the damaged cell
when it was empty (`do_damage` returned `Ok`, so `had_target`) or its occupant
was killed, else to the cell just before it.  The warp target below merges the
source's `had_target`/`target_killed` booleans: `Err` (⇒ `!had_target`) and
`Ok(true)` warp to `destination`, `Ok(false)` to `before_destination`. -/
def do_move (board : Board) (m : Move) : Board × Except MoveError PUnit.{1} :=
  match board.units[m.unit]? with
  | none => (board, Except.error MoveError.InvalidSelection)
  | some u =>
    match Search.findPath Vec2.nbrs (board.navWalk u.space)
        (board.width * board.height + 1) u.position m.to' with
    | none => (board, Except.error MoveError.DestinationNotReachable)
    | some path =>
      match walk_loop board path m.to' u.position with
      | (destination, before_destination) =>
        match do_damage board { team := u.team, amount := u.damage, at' := destination } with
        | (b1, dres) =>
          let target :=
            match dres with
            | Except.ok true => destination
            | Except.ok false => before_destination
            | Except.error _ => destination
          match do_warp b1 { unit := m.unit, to' := target } with
          | (b2, Except.error e) =>
            (b2, Except.error (match e with
              | WarpError.InvalidSelection => MoveError.InvalidSelection
              | WarpError.InvalidPosition => MoveError.InvalidPosition
              | WarpError.IncompatibleTerrain => MoveError.IncompatibleTerrain
              | WarpError.SpaceOccupied => MoveError.SpaceOccupied))
          | (b2, Except.ok _) => (b2, Except.ok PUnit.unit)

theorem Vec2.add_eq (a b : Vec2) : a + b = ⟨a.x + b.x, a.y + b.y⟩ := rfl

theorem Vec2.nbrs_symmetric (p q : Vec2) : p ∈ Vec2.nbrs q ↔ q ∈ Vec2.nbrs p := by
  cases p
  cases q
  simp only [Vec2.nbrs, List.mem_cons, List.not_mem_nil, or_false, Vec2.mk.injEq]
  omega

/-- The in-bounds cells of a `width × height` board as a finite set. -/
def gameCells (w h : Nat) : Finset Vec2 :=
  (Finset.range w ×ˢ Finset.range h).image fun q => ⟨(q.1 : Int), (q.2 : Int)⟩

theorem mem_gameCells {w h : Nat} {p : Vec2} :
    p ∈ gameCells w h ↔ 0 ≤ p.x ∧ p.x < (w : Int) ∧ 0 ≤ p.y ∧ p.y < (h : Int) := by
  simp only [gameCells, Finset.mem_image, Finset.mem_product, Finset.mem_range, Prod.exists]
  constructor
  · rintro ⟨a, b, ⟨ha, hb⟩, rfl⟩
    simp only
    omega
  · rintro ⟨h1, h2, h3, h4⟩
    refine ⟨p.x.toNat, p.y.toNat, ⟨by omega, by omega⟩, ?_⟩
    cases p
    simp only at h1 h2 h3 h4
    simp only [Vec2.mk.injEq]
    omega

theorem card_gameCells (w h : Nat) : (gameCells w h).card = w * h := by
  have hinj : Function.Injective
      (fun q : Nat × Nat => (⟨(q.1 : Int), (q.2 : Int)⟩ : Vec2)) := by
    rintro ⟨a1, a2⟩ ⟨b1, b2⟩ h
    simp only [Vec2.mk.injEq, Nat.cast_inj] at h
    rw [Prod.mk.injEq]
    exact h
  rw [gameCells, Finset.card_image_of_injective _ hinj, Finset.card_product,
    Finset.card_range, Finset.card_range]

theorem in_bounds_iff {b : Board} {p : Vec2} :
    b.in_bounds p = true ↔
      0 ≤ p.x ∧ p.x < (b.width : Int) ∧ 0 ≤ p.y ∧ p.y < (b.height : Int) := by
  rw [Board.in_bounds]
  simp only [Bool.and_eq_true, decide_eq_true_eq]
  tauto

theorem navWalk_mem_gameCells (b : Board) (sp : Space) (p : Vec2)
    (h : b.navWalk sp p = true) : p ∈ gameCells b.width b.height := by
  rw [Board.navWalk, Bool.and_eq_true] at h
  rw [mem_gameCells]
  exact in_bounds_iff.mp h.1

theorem isDist_nav_le_game (b : Board) (sp : Space) (o p : Vec2) (m : Nat)
    (h : Search.IsDist Vec2.nbrs (b.navWalk sp) o p m) : m ≤ b.width * b.height := by
  have := Search.isDist_le_card (gameCells b.width b.height)
    (fun q hq => navWalk_mem_gameCells b sp q hq) h
  rwa [card_gameCells] at this

/-- The modelled `astar.find` of `do_move` fails exactly on unreachable
destinations. -/
theorem findPath_none_iff (b : Board) (sp : Space) (o t : Vec2) :
    Search.findPath Vec2.nbrs (b.navWalk sp) (b.width * b.height + 1) o t = none ↔
      ¬ Search.Reachable Vec2.nbrs (b.navWalk sp) o t := by
  rw [Search.findPath]
  have hnone := Search.bfs_none_iff Vec2.nbrs_symmetric
    (fun q m h => isDist_nav_le_game b sp o q m h) (b.width * b.height + 1) (le_refl _) t
  cases hl : Search.lookupD
      (Search.bfs Vec2.nbrs (b.navWalk sp) (b.width * b.height + 1) o) t with
  | none =>
      simp only []
      exact ⟨fun _ => hnone.mp hl, fun _ => trivial⟩
  | some n =>
      simp only []
      constructor
      · intro hc
        exact Option.noConfusion hc
      · intro hr
        exact absurd ⟨n, (Search.bfs_correct Vec2.nbrs_symmetric
          (fun q m h => isDist_nav_le_game b sp o q m h)
          (b.width * b.height + 1) (le_refl _) t n).mp hl |>.1⟩ hr

theorem to_index_lt (b : Board) (p : Vec2) (h : b.in_bounds p = true) :
    b.to_index p < b.width * b.height := by
  obtain ⟨h1, h2, h3, h4⟩ := in_bounds_iff.mp h
  rw [Board.to_index]
  have hnn : 0 ≤ p.y * (b.width : Int) :=
    mul_nonneg h3 (by positivity)
  have hlt : p.x + p.y * (b.width : Int) < ((b.width * b.height : Nat) : Int) := by
    push_cast
    nlinarith [mul_le_mul_of_nonneg_right (show p.y ≤ (b.height : Int) - 1 by omega)
      (show (0 : Int) ≤ (b.width : Int) by positivity)]
  omega

theorem get_tile_isSome_iff (b : Board) (ht : b.tiles.length = b.width * b.height)
    (p : Vec2) : (b.get_tile p).isSome = true ↔ b.in_bounds p = true := by
  rw [Board.get_tile]
  by_cases h : b.in_bounds p
  · rw [if_pos h]
    have hlt := to_index_lt b p h
    cases hg : b.tiles[b.to_index p]? with
    | none =>
        rw [List.getElem?_eq_none_iff] at hg
        omega
    | some t => simp [h]
  · rw [if_neg h]
    simp [h]

/-- The per-cell half of the occupancy invariant: a populated occupancy entry
points at an existing, live unit whose recorded position is that very cell. -/
def InvCell (b : Board) (i : Nat) : Prop :=
  ∀ id, b.spaces[i]? = some (some id) →
    ∃ u, b.units[id]? = some u ∧ 0 < u.health ∧ b.in_bounds u.position = true ∧
      b.to_index u.position = i

/-- The per-unit half: every live unit is in bounds and is registered in the
occupancy map at its recorded position. -/
def InvUnit (b : Board) (id : Nat) : Prop :=
  ∀ u, b.units[id]? = some u → 0 < u.health →
    b.in_bounds u.position = true ∧
    b.spaces[b.to_index u.position]? = some (some id)

instance InvCell.dec (b : Board) (i : Nat) : Decidable (InvCell b i) :=
  match hs : b.spaces[i]? with
  | some (some id) =>
      match hu : b.units[id]? with
      | some u =>
          decidable_of_iff
            (0 < u.health ∧ b.in_bounds u.position = true ∧ b.to_index u.position = i)
            (by
              constructor
              · intro hc id' hid'
                rw [hs] at hid'
                obtain rfl := Option.some.inj (Option.some.inj hid')
                exact ⟨u, hu, hc⟩
              · intro hc
                obtain ⟨u', hu', hc'⟩ := hc id hs
                rw [hu] at hu'
                obtain rfl := Option.some.inj hu'
                exact hc')
      | none =>
          isFalse (by
            intro hc
            obtain ⟨u, hu', _⟩ := hc id hs
            rw [hu] at hu'
            exact Option.noConfusion hu')
  | some none =>
      isTrue (by
        intro id' hid'
        rw [hs] at hid'
        exact absurd (Option.some.inj hid') (by simp))
  | none =>
      isTrue (by
        intro id' hid'
        rw [hs] at hid'
        exact Option.noConfusion hid')

instance InvUnit.dec (b : Board) (id : Nat) : Decidable (InvUnit b id) :=
  match hu : b.units[id]? with
  | some u =>
      decidable_of_iff
        (0 < u.health →
          b.in_bounds u.position = true ∧
          b.spaces[b.to_index u.position]? = some (some id))
        (by
          constructor
          · intro hc u' hu' hl
            rw [hu] at hu'
            obtain rfl := Option.some.inj hu'
            exact hc hl
          · intro hc hl
            exact hc u hu hl)
  | none =>
      isTrue (fun u' hu' => by
        rw [hu] at hu'
        exact Option.noConfusion hu')

/-- The occupancy invariant of the spec: well-sized vectors, and a cell is
populated iff a live unit's position equals that cell ("at most one unit per
cell" follows, `Inv.at_most_one`). -/
def Inv (b : Board) : Prop :=
  b.tiles.length = b.width * b.height ∧
  b.spaces.length = b.width * b.height ∧
  (∀ i < b.spaces.length, InvCell b i) ∧
  (∀ id < b.units.length, InvUnit b id)

instance Inv.dec (b : Board) : Decidable (Inv b) := by
  unfold Inv
  infer_instance

theorem Inv.cell {b : Board} (hb : Inv b) {i id : Nat}
    (h : b.spaces[i]? = some (some id)) :
    ∃ u, b.units[id]? = some u ∧ 0 < u.health ∧ b.in_bounds u.position = true ∧
      b.to_index u.position = i := by
  have hi : i < b.spaces.length := by
    by_contra hc
    rw [List.getElem?_eq_none_iff.mpr (by omega)] at h
    exact Option.noConfusion h
  exact hb.2.2.1 i hi id h

theorem Inv.unit_live {b : Board} (hb : Inv b) {id : Nat} {u : Unit}
    (h : b.units[id]? = some u) (hl : 0 < u.health) :
    b.in_bounds u.position = true ∧
      b.spaces[b.to_index u.position]? = some (some id) := by
  have hi : id < b.units.length := by
    by_contra hc
    rw [List.getElem?_eq_none_iff.mpr (by omega)] at h
    exact Option.noConfusion h
  exact hb.2.2.2 id hi u h hl

/-- "At most one unit occupies any cell": two live units with the same
position are the same unit. -/
theorem Inv.at_most_one {b : Board} (hb : Inv b) {id1 id2 : Nat} {u1 u2 : Unit}
    (h1 : b.units[id1]? = some u1) (h2 : b.units[id2]? = some u2)
    (hl1 : 0 < u1.health) (hl2 : 0 < u2.health)
    (hpos : u1.position = u2.position) : id1 = id2 := by
  have e1 := (hb.unit_live h1 hl1).2
  have e2 := (hb.unit_live h2 hl2).2
  rw [hpos] at e1
  rw [e1] at e2
  exact Option.some.inj (Option.some.inj e2)

theorem get_tile_some_in_bounds {b : Board} {p : Vec2} {tile : Tile}
    (h : b.get_tile p = some tile) : b.in_bounds p = true := by
  rw [Board.get_tile] at h
  by_cases hin : b.in_bounds p
  · exact hin
  · rw [if_neg hin] at h
    exact Option.noConfusion h

theorem unit_new_health_pos (id : Nat) (p : Vec2) (k : UnitKind) (t : Team) :
    0 < (Unit.new id p k t).health := by
  cases k <;> simp [Unit.new]

theorem unit_new_position (id : Nat) (p : Vec2) (k : UnitKind) (t : Team) :
    (Unit.new id p k t).position = p := by
  cases k <;> rfl

theorem unit_new_id (id : Nat) (p : Vec2) (k : UnitKind) (t : Team) :
    (Unit.new id p k t).id = id := by
  cases k <;> rfl

/-- `Board::spawn` either rejects and returns the board unchanged, or commits
exactly the insertion of the freshly built unit. -/
theorem spawn_result (b : Board) (p : Vec2) (k : UnitKind) (t : Team) :
    ((b.spawn p k t).1 = b ∧ ∃ e, (b.spawn p k t).2 = Except.error e) ∨
    (b.in_bounds p = true ∧
     (∃ tile, b.get_tile p = some tile ∧
        (Unit.new b.units.length p k t).space.can_traverse tile.traverse = true) ∧
     (∀ id0, b.spaces[b.to_index p]? ≠ some (some id0)) ∧
     b.spawn p k t =
       ({ b with units := b.units ++ [Unit.new b.units.length p k t],
                 spaces := b.spaces.set (b.to_index p) (some b.units.length) },
        Except.ok b.units.length)) := by
  unfold Board.spawn
  dsimp only
  cases hg : b.get_tile p with
  | none => exact Or.inl ⟨rfl, _, rfl⟩
  | some tile =>
    simp only
    by_cases hc : (Unit.new b.units.length p k t).space.can_traverse tile.traverse = true
    · rw [if_neg (by simp [hc])]
      cases hs : b.spaces[b.to_index p]? with
      | none =>
          refine Or.inr ⟨get_tile_some_in_bounds hg, ⟨tile, rfl, hc⟩, ?_, rfl⟩
          intro id0
          exact fun hcon => Option.noConfusion hcon
      | some o =>
        cases o with
        | none =>
            refine Or.inr ⟨get_tile_some_in_bounds hg, ⟨tile, rfl, hc⟩, ?_, rfl⟩
            intro id0
            intro hcon
            exact Option.noConfusion (Option.some.inj hcon)
        | some id0 => exact Or.inl ⟨rfl, _, rfl⟩
    · rw [if_pos (by simpa using hc)]
      exact Or.inl ⟨rfl, _, rfl⟩

theorem spawn_preserves_inv (b : Board) (p : Vec2) (k : UnitKind) (t : Team)
    (hb : Inv b) : Inv (b.spawn p k t).1 := by
  rcases spawn_result b p k t with ⟨heq, _⟩ | ⟨hin, ⟨tile, hg, hc⟩, hemp, heq⟩
  · rw [heq]
    exact hb
  · rw [heq]
    obtain ⟨ht, hs, hcell, hunit⟩ := hb
    have hidxlt : b.to_index p < b.spaces.length := by
      rw [hs]
      exact to_index_lt b p hin
    refine ⟨ht, by simpa [List.length_set] using hs, ?_, ?_⟩
    · intro i hi id hspc
      simp only [List.length_set] at hi
      by_cases hii : b.to_index p = i
      · subst hii
        rw [List.getElem?_set_self hidxlt] at hspc
        obtain rfl : b.units.length = id := Option.some.inj (Option.some.inj hspc)
        refine ⟨Unit.new b.units.length p k t, ?_, unit_new_health_pos _ _ _ _, ?_, ?_⟩
        · exact List.getElem?_concat_length b.units (Unit.new b.units.length p k t)
        · rw [unit_new_position]
          exact hin
        · rw [unit_new_position]
          rfl
      · rw [List.getElem?_set_ne hii] at hspc
        obtain ⟨u', hu', hl', hin', hix'⟩ := hcell i hi id hspc
        have hidlt : id < b.units.length := by
          by_contra hcon
          rw [List.getElem?_eq_none_iff.mpr (by omega)] at hu'
          exact Option.noConfusion hu'
        exact ⟨u', by rw [List.getElem?_append_left hidlt]; exact hu', hl', hin', hix'⟩
    · intro id hid u' hu' hl'
      by_cases hide : id = b.units.length
      · subst hide
        rw [List.getElem?_concat_length] at hu'
        obtain rfl := Option.some.inj hu'
        constructor
        · rw [unit_new_position]
          exact hin
        · rw [unit_new_position]
          exact List.getElem?_set_self hidxlt
      · have hidlt : id < b.units.length := by
          simp only [List.length_append, List.length_singleton] at hid
          omega
        rw [List.getElem?_append_left hidlt] at hu'
        obtain ⟨hin', hsp'⟩ := hunit id hidlt u' hu' hl'
        refine ⟨hin', ?_⟩
        by_cases hpe : b.to_index p = b.to_index u'.position
        · rw [← hpe] at hsp'
          exact absurd hsp' (hemp id)
        · show (b.spaces.set (b.to_index p) (some b.units.length))[b.to_index u'.position]? =
            some (some id)
          rw [List.getElem?_set_ne hpe]
          exact hsp'

/-- `do_damage` takes exactly one of four courses: out-of-bounds error, no-op
success (no enemy occupant), a kill (health hits 0, occupancy cleared) or a
plain hit. -/
theorem damage_result (b : Board) (d : Damage) :
    (do_damage b d = (b, Except.error DamageError.InvalidPosition) ∧
      b.in_bounds d.at' = false) ∨
    (do_damage b d = (b, Except.ok false) ∧ b.in_bounds d.at' = true ∧
      (∀ id u, b.spaces[b.to_index d.at']? = some (some id) → b.units[id]? = some u →
        u.team = d.team)) ∨
    (∃ id u, b.in_bounds d.at' = true ∧
      b.spaces[b.to_index d.at']? = some (some id) ∧ b.units[id]? = some u ∧
      u.team ≠ d.team ∧
      ((max (u.health - d.amount) 0 = 0 ∧
        do_damage b d =
          ({ b with
              units := b.units.set id { u with health := max (u.health - d.amount) 0 },
              spaces := b.spaces.set (b.to_index d.at') none }, Except.ok true)) ∨
       (max (u.health - d.amount) 0 ≠ 0 ∧
        do_damage b d =
          ({ b with
              units := b.units.set id { u with health := max (u.health - d.amount) 0 } },
           Except.ok false)))) := by
  unfold do_damage
  dsimp only
  by_cases hin : b.in_bounds d.at' = true
  · rw [if_neg (by simp [hin])]
    cases hsp : b.spaces[b.to_index d.at']? with
    | none =>
        refine Or.inr (Or.inl ⟨rfl, hin, ?_⟩)
        intro id u h _
        exact Option.noConfusion h
    | some o =>
      cases o with
      | none =>
          refine Or.inr (Or.inl ⟨rfl, hin, ?_⟩)
          intro id u h _
          exact Option.noConfusion (Option.some.inj h)
      | some id =>
        simp only
        cases hu : b.units[id]? with
        | none =>
            refine Or.inr (Or.inl ⟨rfl, hin, ?_⟩)
            intro id' u h h'
            obtain rfl : id = id' := Option.some.inj (Option.some.inj h)
            rw [hu] at h'
            exact Option.noConfusion h'
        | some u =>
          simp only
          by_cases hteam : u.team = d.team
          · rw [if_neg (by simp [hteam])]
            refine Or.inr (Or.inl ⟨rfl, hin, ?_⟩)
            intro id' u' h h'
            obtain rfl : id = id' := Option.some.inj (Option.some.inj h)
            rw [hu] at h'
            obtain rfl := Option.some.inj h'
            exact hteam
          · rw [if_pos (by simp [hteam])]
            by_cases hk : max (u.health - d.amount) 0 = 0
            · rw [if_pos hk]
              exact Or.inr (Or.inr ⟨id, u, hin, rfl, hu, hteam, Or.inl ⟨hk, rfl⟩⟩)
            · rw [if_neg hk]
              exact Or.inr (Or.inr ⟨id, u, hin, rfl, hu, hteam, Or.inr ⟨hk, rfl⟩⟩)
  · rw [if_pos (by simp [hin])]
    exact Or.inl ⟨rfl, by simpa using hin⟩

theorem damage_preserves_inv (b : Board) (d : Damage) (hb : Inv b) :
    Inv (do_damage b d).1 := by
  rcases damage_result b d with ⟨heq, _⟩ | ⟨heq, _, _⟩ | ⟨id, u, hin, hsp, hu, hteam, hcase⟩
  · rw [heq]
    exact hb
  · rw [heq]
    exact hb
  · obtain ⟨u0, hu0, hl0, hin0, hix0⟩ := hb.cell hsp
    rw [hu] at hu0
    obtain rfl : u = u0 := Option.some.inj hu0
    obtain ⟨ht, hs, hcell, hunit⟩ := hb
    have hidlt : id < b.units.length := by
      by_contra hc
      rw [List.getElem?_eq_none_iff.mpr (by omega)] at hu
      exact Option.noConfusion hu
    have hidxlt : b.to_index d.at' < b.spaces.length := by
      rw [hs]
      exact to_index_lt b d.at' hin
    rcases hcase with ⟨hk, heq⟩ | ⟨hk, heq⟩
    · rw [heq]
      refine ⟨ht, by simpa [List.length_set] using hs, ?_, ?_⟩
      · intro i hi id' hspc
        simp only [List.length_set] at hi
        by_cases hii : b.to_index d.at' = i
        · subst hii
          rw [List.getElem?_set_self hidxlt] at hspc
          exact absurd (Option.some.inj hspc) (by simp)
        · rw [List.getElem?_set_ne hii] at hspc
          obtain ⟨u'', hu'', hl'', hin'', hix''⟩ := hcell i hi id' hspc
          have hne : id' ≠ id := by
            rintro rfl
            rw [hu] at hu''
            obtain rfl := Option.some.inj hu''
            exact hii (by rw [← hix0, hix''])
          exact ⟨u'', by rw [List.getElem?_set_ne (Ne.symm hne)]; exact hu'',
            hl'', hin'', hix''⟩
      · intro id' hid' u' hu' hl'
        simp only [List.length_set] at hid'
        by_cases hide : id = id'
        · subst hide
          rw [List.getElem?_set_self hidlt] at hu'
          obtain rfl := Option.some.inj hu'
          exfalso
          have hproj : ({ u with health := max (u.health - d.amount) 0 } : Unit).health =
              max (u.health - d.amount) 0 := rfl
          rw [hproj, hk] at hl'
          exact lt_irrefl 0 hl'
        · rw [List.getElem?_set_ne hide] at hu'
          obtain ⟨hin'', hsp''⟩ := hunit id' hid' u' hu' hl'
          refine ⟨hin'', ?_⟩
          by_cases hpe : b.to_index d.at' = b.to_index u'.position
          · rw [← hpe, hsp] at hsp''
            exact absurd (Option.some.inj (Option.some.inj hsp'')) hide
          · show (b.spaces.set (b.to_index d.at') none)[b.to_index u'.position]? =
              some (some id')
            rw [List.getElem?_set_ne hpe]
            exact hsp''
    · rw [heq]
      refine ⟨ht, hs, ?_, ?_⟩
      · intro i hi id' hspc
        obtain ⟨u'', hu'', hl'', hin'', hix''⟩ := hcell i hi id' hspc
        by_cases hide : id = id'
        · subst hide
          rw [hu] at hu''
          obtain rfl : u = u'' := Option.some.inj hu''
          refine ⟨{ u with health := max (u.health - d.amount) 0 }, ?_, ?_, hin'', hix''⟩
          · exact List.getElem?_set_self hidlt
          · show 0 < max (u.health - d.amount) 0
            omega
        · exact ⟨u'', by rw [List.getElem?_set_ne hide]; exact hu'', hl'', hin'', hix''⟩
      · intro id' hid' u' hu' hl'
        simp only [List.length_set] at hid'
        by_cases hide : id = id'
        · subst hide
          rw [List.getElem?_set_self hidlt] at hu'
          obtain rfl := Option.some.inj hu'
          refine ⟨hin0, ?_⟩
          show b.spaces[b.to_index u.position]? = some (some id)
          rw [hix0]
          exact hsp
        · rw [List.getElem?_set_ne hide] at hu'
          exact hunit id' hid' u' hu' hl'

/-- `do_warp` either rejects unchanged or commits exactly the occupancy move. -/
theorem warp_result (b : Board) (w : Warp) :
    ((do_warp b w).1 = b ∧ ∃ e, (do_warp b w).2 = Except.error e) ∨
    (∃ u, b.units[w.unit]? = some u ∧
      (∃ tile, b.get_tile w.to' = some tile ∧ u.space.can_traverse tile.traverse = true) ∧
      b.unit_at w.to' = none ∧
      do_warp b w =
        ({ b with
            spaces := (b.spaces.set (b.to_index u.position) none).set (b.to_index w.to')
              (some w.unit),
            units := b.units.set w.unit { u with position := w.to' } },
         Except.ok PUnit.unit)) := by
  unfold do_warp
  dsimp only
  cases hu : b.units[w.unit]? with
  | none => exact Or.inl ⟨rfl, _, rfl⟩
  | some u =>
    simp only
    cases hg : b.get_tile w.to' with
    | none => exact Or.inl ⟨rfl, _, rfl⟩
    | some tile =>
      simp only
      by_cases hc : u.space.can_traverse tile.traverse = true
      · rw [if_neg (by simp [hc])]
        cases hocc : b.unit_at w.to' with
        | some u' =>
            rw [if_pos (by simp [hocc])]
            exact Or.inl ⟨rfl, _, rfl⟩
        | none =>
            rw [if_neg (by simp [hocc])]
            exact Or.inr ⟨u, rfl, ⟨tile, rfl, hc⟩, rfl, rfl⟩
      · rw [if_pos (by simpa using hc)]
        exact Or.inl ⟨rfl, _, rfl⟩

theorem warp_preserves_inv (b : Board) (w : Warp) (hb : Inv b)
    (hlv : ∀ u, b.units[w.unit]? = some u → 0 < u.health) :
    Inv (do_warp b w).1 := by
  rcases warp_result b w with ⟨heq, _⟩ | ⟨u, hu, ⟨tile, hg, hc⟩, hocc, heq⟩
  · rw [heq]
    exact hb
  · have hl : 0 < u.health := hlv u hu
    obtain ⟨hinu, hspu⟩ := hb.unit_live hu hl
    have hnotocc : ∀ id2, b.spaces[b.to_index w.to']? ≠ some (some id2) := by
      intro id2 hsp2
      obtain ⟨u2, hu2, _, _, _⟩ := hb.cell hsp2
      rw [Board.unit_at, hsp2] at hocc
      simp only at hocc
      rw [hu2] at hocc
      exact Option.noConfusion hocc
    obtain ⟨ht, hs, hcell, hunit⟩ := hb
    have hin2 : b.in_bounds w.to' = true := get_tile_some_in_bounds hg
    have hidlt : w.unit < b.units.length := by
      by_contra hcon
      rw [List.getElem?_eq_none_iff.mpr (by omega)] at hu
      exact Option.noConfusion hu
    have hilt : b.to_index u.position < b.spaces.length := by
      rw [hs]
      exact to_index_lt b u.position hinu
    have hjlt : b.to_index w.to' < b.spaces.length := by
      rw [hs]
      exact to_index_lt b w.to' hin2
    have hij : b.to_index u.position ≠ b.to_index w.to' := by
      intro hcc
      rw [hcc] at hspu
      exact hnotocc w.unit hspu
    rw [heq]
    refine ⟨ht, by simp [List.length_set, hs], ?_, ?_⟩
    · intro i hi id' hspc
      simp only [List.length_set] at hi
      by_cases hjj : b.to_index w.to' = i
      · subst hjj
        rw [List.getElem?_set_self (by simpa [List.length_set] using hjlt)] at hspc
        obtain rfl : w.unit = id' := Option.some.inj (Option.some.inj hspc)
        refine ⟨{ u with position := w.to' }, List.getElem?_set_self hidlt, hl, hin2, rfl⟩
      · rw [List.getElem?_set_ne hjj] at hspc
        by_cases hii : b.to_index u.position = i
        · subst hii
          rw [List.getElem?_set_self hilt] at hspc
          exact absurd (Option.some.inj hspc) (by simp)
        · rw [List.getElem?_set_ne hii] at hspc
          obtain ⟨u'', hu'', hl'', hin'', hix''⟩ := hcell i hi id' hspc
          have hne : id' ≠ w.unit := by
            rintro rfl
            rw [hu] at hu''
            obtain rfl := Option.some.inj hu''
            exact hii hix''
          exact ⟨u'', by rw [List.getElem?_set_ne (Ne.symm hne)]; exact hu'',
            hl'', hin'', hix''⟩
    · intro id' hid' u' hu' hl'
      simp only [List.length_set] at hid'
      by_cases hide : w.unit = id'
      · subst hide
        rw [List.getElem?_set_self hidlt] at hu'
        obtain rfl := Option.some.inj hu'
        refine ⟨hin2, ?_⟩
        show ((b.spaces.set (b.to_index u.position) none).set (b.to_index w.to')
            (some w.unit))[b.to_index w.to']? = some (some w.unit)
        exact List.getElem?_set_self (by simpa [List.length_set] using hjlt)
      · rw [List.getElem?_set_ne hide] at hu'
        obtain ⟨hin'', hsp''⟩ := hunit id' hid' u' hu' hl'
        refine ⟨hin'', ?_⟩
        have hj2 : b.to_index w.to' ≠ b.to_index u'.position := by
          intro hcc
          rw [← hcc] at hsp''
          exact hnotocc id' hsp''
        have hi2 : b.to_index u.position ≠ b.to_index u'.position := by
          intro hcc
          rw [← hcc, hspu] at hsp''
          exact hide (Option.some.inj (Option.some.inj hsp''))
        show ((b.spaces.set (b.to_index u.position) none).set (b.to_index w.to')
            (some w.unit))[b.to_index u'.position]? = some (some id')
        rw [List.getElem?_set_ne hj2, List.getElem?_set_ne hi2]
        exact hsp''

/-- `do_damage` never touches the stored entry of a unit belonging to the same
team as the damage record (the friendly-fire guard). -/
theorem damage_keeps_same_team_entry (b : Board) (d : Damage) {id : Nat} {u : Unit}
    (hu : b.units[id]? = some u) (hteam : u.team = d.team) :
    (do_damage b d).1.units[id]? = some u := by
  rcases damage_result b d with ⟨heq, _⟩ | ⟨heq, _, _⟩ |
    ⟨id', u', hin, hsp, hu', hteam', hcase⟩
  · rw [heq]
    exact hu
  · rw [heq]
    exact hu
  · have hne : id' ≠ id := by
      rintro rfl
      rw [hu] at hu'
      obtain rfl := Option.some.inj hu'
      exact hteam' hteam
    rcases hcase with ⟨_, heq⟩ | ⟨_, heq⟩ <;> rw [heq] <;>
      · show (b.units.set id' _)[id]? = some u
        rw [List.getElem?_set_ne hne]
        exact hu

theorem move_preserves_inv (b : Board) (m : Move) (hb : Inv b)
    (hlv : ∀ u, b.units[m.unit]? = some u → 0 < u.health) :
    Inv (do_move b m).1 := by
  unfold do_move
  cases hu : b.units[m.unit]? with
  | none => exact hb
  | some u =>
    simp only
    cases hp : Search.findPath Vec2.nbrs (b.navWalk u.space)
        (b.width * b.height + 1) u.position m.to' with
    | none => exact hb
    | some path =>
      simp only
      cases hwl : walk_loop b path m.to' u.position with
      | mk destination before_destination =>
        simp only
        cases hdd : do_damage b { team := u.team, amount := u.damage, at' := destination } with
        | mk b1 dres =>
          simp only
          have hb1 : Inv b1 := by
            have := damage_preserves_inv b
              { team := u.team, amount := u.damage, at' := destination } hb
            rw [hdd] at this
            exact this
          have hu1 : b1.units[m.unit]? = some u := by
            have := damage_keeps_same_team_entry b
              { team := u.team, amount := u.damage, at' := destination } hu rfl
            rw [hdd] at this
            exact this
          have hlv1 : ∀ u', b1.units[m.unit]? = some u' → 0 < u'.health := by
            intro u' h
            rw [hu1] at h
            obtain rfl := Option.some.inj h
            exact hlv _ hu
          generalize (match dres with
            | Except.ok true => destination
            | Except.ok false => before_destination
            | Except.error _ => destination) = target
          have hwp := warp_preserves_inv b1 { unit := m.unit, to' := target } hb1 hlv1
          cases hw : do_warp b1 { unit := m.unit, to' := target } with
          | mk b2 r =>
            rw [hw] at hwp
            cases r with
            | error e => exact hwp
            | ok _ => exact hwp

theorem unit_new_health_eq_max (id : Nat) (p : Vec2) (k : UnitKind) (t : Team) :
    (Unit.new id p k t).health = (Unit.new id p k t).health_max := by
  cases k <;> rfl

theorem unit_new_kind (id : Nat) (p : Vec2) (k : UnitKind) (t : Team) :
    (Unit.new id p k t).kind = k := by
  cases k <;> rfl

theorem unit_new_team (id : Nat) (p : Vec2) (k : UnitKind) (t : Team) :
    (Unit.new id p k t).team = t := by
  cases k <;> rfl

/-- C3 (amended): `Spawn` and the damage command are validate-then-commit —
whenever they return an error the board is unchanged.  (`Move` is not:
see the counterexample, where `do_move` applies damage and then fails.) -/
theorem C3_spawn_and_damage_atomic_on_error :
    (∀ (b : Board) (p : Vec2) (k : UnitKind) (t : Team) (e : SpawnError),
      (b.spawn p k t).2 = Except.error e → (b.spawn p k t).1 = b) ∧
    (∀ (b : Board) (d : Damage) (e : DamageError),
      (do_damage b d).2 = Except.error e → (do_damage b d).1 = b) := by
  constructor
  · intro b p k t e he
    rcases spawn_result b p k t with ⟨heq, _⟩ | ⟨_, _, _, heq⟩
    · exact heq
    · rw [heq] at he
      exact absurd he (by simp)
  · intro b d e he
    rcases damage_result b d with ⟨heq, _⟩ | ⟨heq, _, _⟩ |
      ⟨id, u, _, _, _, _, ⟨_, heq⟩ | ⟨_, heq⟩⟩ <;> rw [heq] at he ⊢ <;>
      first
      | rfl
      | exact absurd he (by simp)

theorem C3_spawn_and_damage_atomic_on_error_witness :
    ((Board.new 4 4).spawn ⟨9, 9⟩ UnitKind.Tank Team.Red).1 = Board.new 4 4 :=
  C3_spawn_and_damage_atomic_on_error.1 (Board.new 4 4) ⟨9, 9⟩ UnitKind.Tank Team.Red
    SpawnError.InvalidPosition (by decide)

/-- C3 (counterexample): `do_move` is not atomic.  On a 4×4 board with a red
Infantry at (1,1) and a blue Tank at (2,1), moving the Infantry onto the Tank
damages the Tank (health 4 → 3) and then fails `SpaceOccupied` on the warp
back — an error return with the board already mutated. -/
theorem C3_move_error_after_partial_mutation :
    (do_move ((((Board.new 4 4).spawn ⟨1, 1⟩ UnitKind.Infantry Team.Red).1).spawn
          ⟨2, 1⟩ UnitKind.Tank Team.Blue).1 { unit := 0, to' := ⟨2, 1⟩ }).2 =
      Except.error MoveError.SpaceOccupied ∧
    (do_move ((((Board.new 4 4).spawn ⟨1, 1⟩ UnitKind.Infantry Team.Red).1).spawn
          ⟨2, 1⟩ UnitKind.Tank Team.Blue).1 { unit := 0, to' := ⟨2, 1⟩ }).1 ≠
      ((((Board.new 4 4).spawn ⟨1, 1⟩ UnitKind.Infantry Team.Red).1).spawn
          ⟨2, 1⟩ UnitKind.Tank Team.Blue).1 ∧
    ((do_move ((((Board.new 4 4).spawn ⟨1, 1⟩ UnitKind.Infantry Team.Red).1).spawn
          ⟨2, 1⟩ UnitKind.Tank Team.Blue).1 { unit := 0, to' := ⟨2, 1⟩ }).1.units[1]?).map
        (fun u => u.health) = some 3 ∧
    (((((Board.new 4 4).spawn ⟨1, 1⟩ UnitKind.Infantry Team.Red).1).spawn
          ⟨2, 1⟩ UnitKind.Tank Team.Blue).1.units[1]?).map (fun u => u.health) = some 4 := by
  decide

/-- C4 (amended): `spawn` and `do_damage` preserve the occupancy invariant
unconditionally; `do_warp` and `do_move` preserve it provided the moved
handle, when it resolves, refers to a live unit. -/
theorem C4_occupancy_invariant_preservation :
    (∀ (b : Board) (p : Vec2) (k : UnitKind) (t : Team), Inv b → Inv (b.spawn p k t).1) ∧
    (∀ (b : Board) (d : Damage), Inv b → Inv (do_damage b d).1) ∧
    (∀ (b : Board) (w : Warp), Inv b →
      (∀ u, b.units[w.unit]? = some u → 0 < u.health) → Inv (do_warp b w).1) ∧
    (∀ (b : Board) (m : Move), Inv b →
      (∀ u, b.units[m.unit]? = some u → 0 < u.health) → Inv (do_move b m).1) :=
  ⟨fun b p k t hb => spawn_preserves_inv b p k t hb,
   fun b d hb => damage_preserves_inv b d hb,
   fun b w hb hlv => warp_preserves_inv b w hb hlv,
   fun b m hb hlv => move_preserves_inv b m hb hlv⟩

theorem C4_occupancy_invariant_preservation_witness :
    Inv ((Board.new 4 4).spawn ⟨1, 1⟩ UnitKind.Tank Team.Red).1 :=
  C4_occupancy_invariant_preservation.1 (Board.new 4 4) ⟨1, 1⟩ UnitKind.Tank Team.Red
    (by decide)

/-- C4 (counterexample): `do_warp` applied to a dead unit's id breaks the
invariant: kill the Infantry at (1,1), then warp its (still stored) corpse to
(2,2) — the warp succeeds and re-populates occupancy with a dead unit. -/
theorem C4_warp_of_dead_unit_breaks_invariant :
    Inv (do_damage ((Board.new 4 4).spawn ⟨1, 1⟩ UnitKind.Infantry Team.Red).1
          { team := Team.Blue, amount := 2, at' := ⟨1, 1⟩ }).1 ∧
    (do_warp (do_damage ((Board.new 4 4).spawn ⟨1, 1⟩ UnitKind.Infantry Team.Red).1
          { team := Team.Blue, amount := 2, at' := ⟨1, 1⟩ }).1
        { unit := 0, to' := ⟨2, 2⟩ }).2 = Except.ok PUnit.unit ∧
    ¬ Inv (do_warp (do_damage ((Board.new 4 4).spawn ⟨1, 1⟩ UnitKind.Infantry Team.Red).1
          { team := Team.Blue, amount := 2, at' := ⟨1, 1⟩ }).1
        { unit := 0, to' := ⟨2, 2⟩ }).1 := by
  decide

/-- C5 (amended): a damage record on an in-bounds cell is resolved against the
occupant at resolution time: an empty cell is a no-op success; an occupant of
the record's own team is also a no-op success (friendly-fire guard); an
opposing occupant loses `min(amount, health)` health, which therefore never
goes negative. -/
theorem C5_damage_subtracts_min_against_enemies (b : Board) (d : Damage)
    (hin : b.in_bounds d.at' = true) :
    (b.unit_at d.at' = none → do_damage b d = (b, Except.ok false)) ∧
    (∀ u, b.unit_at d.at' = some u → u.team = d.team →
      do_damage b d = (b, Except.ok false)) ∧
    (∀ id u, b.spaces[b.to_index d.at']? = some (some id) → b.units[id]? = some u →
      u.team ≠ d.team → 0 ≤ u.health →
      ∃ b' killed, do_damage b d = (b', Except.ok killed) ∧
        b'.units[id]? = some { u with health := u.health - min d.amount u.health } ∧
        0 ≤ u.health - min d.amount u.health ∧
        (killed = true ↔ u.health - min d.amount u.health = 0)) := by
  refine ⟨?_, ?_, ?_⟩
  · intro hnone
    rcases damage_result b d with ⟨_, hf⟩ | ⟨heq, _, _⟩ |
      ⟨id, u, _, hsp, hu, _, _⟩
    · rw [hin] at hf
      exact absurd hf (by simp)
    · exact heq
    · rw [Board.unit_at, hsp] at hnone
      simp only at hnone
      rw [hu] at hnone
      exact Option.noConfusion hnone
  · intro u hsome hteam
    rcases damage_result b d with ⟨_, hf⟩ | ⟨heq, _, _⟩ |
      ⟨id, u', _, hsp, hu', hteam', _⟩
    · rw [hin] at hf
      exact absurd hf (by simp)
    · exact heq
    · rw [Board.unit_at, hsp] at hsome
      simp only at hsome
      rw [hu'] at hsome
      obtain rfl := Option.some.inj hsome
      exact absurd hteam hteam'
  · intro id u hsp hu hteam hh
    have hidlt : id < b.units.length := by
      by_contra hc
      rw [List.getElem?_eq_none_iff.mpr (by omega)] at hu
      exact Option.noConfusion hu
    have hmm : max (u.health - d.amount) 0 = u.health - min d.amount u.health := by
      omega
    rcases damage_result b d with ⟨_, hf⟩ | ⟨_, _, hall⟩ |
      ⟨id2, u2, _, hsp2, hu2, hteam2, hcase⟩
    · rw [hin] at hf
      exact absurd hf (by simp)
    · exact absurd (hall id u hsp hu) hteam
    · rw [hsp] at hsp2
      obtain rfl : id = id2 := Option.some.inj (Option.some.inj hsp2)
      rw [hu] at hu2
      obtain rfl : u = u2 := Option.some.inj hu2
      rcases hcase with ⟨hk, heq⟩ | ⟨hk, heq⟩
      · refine ⟨_, true, heq, ?_, by omega, by simp; omega⟩
        show (b.units.set id _)[id]? = some _
        rw [List.getElem?_set_self hidlt, hmm]
      · refine ⟨_, false, heq, ?_, by omega, by simp; omega⟩
        show (b.units.set id _)[id]? = some _
        rw [List.getElem?_set_self hidlt, hmm]

theorem C5_damage_subtracts_min_against_enemies_witness :
    ∃ b' killed,
      do_damage ((Board.new 4 4).spawn ⟨1, 1⟩ UnitKind.Infantry Team.Red).1
          { team := Team.Blue, amount := 1, at' := ⟨1, 1⟩ } = (b', Except.ok killed) ∧
      b'.units[0]? = some { Unit.new 0 ⟨1, 1⟩ UnitKind.Infantry Team.Red with
        health := (Unit.new 0 ⟨1, 1⟩ UnitKind.Infantry Team.Red).health -
          min 1 (Unit.new 0 ⟨1, 1⟩ UnitKind.Infantry Team.Red).health } ∧
      0 ≤ (Unit.new 0 ⟨1, 1⟩ UnitKind.Infantry Team.Red).health -
        min 1 (Unit.new 0 ⟨1, 1⟩ UnitKind.Infantry Team.Red).health ∧
      (killed = true ↔
        (Unit.new 0 ⟨1, 1⟩ UnitKind.Infantry Team.Red).health -
          min 1 (Unit.new 0 ⟨1, 1⟩ UnitKind.Infantry Team.Red).health = 0) :=
  (C5_damage_subtracts_min_against_enemies
      ((Board.new 4 4).spawn ⟨1, 1⟩ UnitKind.Infantry Team.Red).1
      { team := Team.Blue, amount := 1, at' := ⟨1, 1⟩ } (by decide)).2.2
    0 (Unit.new 0 ⟨1, 1⟩ UnitKind.Infantry Team.Red) (by decide) (by decide)
    (by decide) (by decide)

/-- C5 (counterexample): a record whose target cell is occupied by a unit of
the record's own team subtracts nothing — the claim's unconditional
`min(amount, health)` subtraction does not happen (health stays 2, the claim
demands 2 - min(1,2) = 1). -/
theorem C5_friendly_occupant_not_damaged :
    ((((Board.new 4 4).spawn ⟨1, 1⟩ UnitKind.Infantry Team.Red).1).unit_at
        ⟨1, 1⟩).isSome = true ∧
    do_damage ((Board.new 4 4).spawn ⟨1, 1⟩ UnitKind.Infantry Team.Red).1
        { team := Team.Red, amount := 1, at' := ⟨1, 1⟩ } =
      (((Board.new 4 4).spawn ⟨1, 1⟩ UnitKind.Infantry Team.Red).1, Except.ok false) ∧
    (((do_damage ((Board.new 4 4).spawn ⟨1, 1⟩ UnitKind.Infantry Team.Red).1
        { team := Team.Red, amount := 1, at' := ⟨1, 1⟩ }).1.unit_at ⟨1, 1⟩).map
      (fun u => u.health)) = some 2 := by
  decide

/-- C6 (amended): when `do_damage` kills a unit it clears the Board occupancy
at the target cell (position lookups now fail), but the unit is *not* removed
from the store: the `units` vector keeps its length and handle lookup still
returns the unit, now at 0 health. -/
theorem C6_kill_clears_cell_but_keeps_store_entry (b : Board) (d : Damage)
    (id : Nat) (u : Unit) (hin : b.in_bounds d.at' = true)
    (hsp : b.spaces[b.to_index d.at']? = some (some id))
    (hu : b.units[id]? = some u) (hteam : u.team ≠ d.team)
    (hkill : max (u.health - d.amount) 0 = 0) :
    (do_damage b d).2 = Except.ok true ∧
    (do_damage b d).1.spaces[b.to_index d.at']? = some none ∧
    (do_damage b d).1.units[id]? = some { u with health := 0 } ∧
    (do_damage b d).1.units.length = b.units.length ∧
    (do_damage b d).1.unit_at d.at' = none := by
  have hidlt : id < b.units.length := by
    by_contra hc
    rw [List.getElem?_eq_none_iff.mpr (by omega)] at hu
    exact Option.noConfusion hu
  have hidxlt : b.to_index d.at' < b.spaces.length := by
    by_contra hc
    rw [List.getElem?_eq_none_iff.mpr (by omega)] at hsp
    exact Option.noConfusion hsp
  rcases damage_result b d with ⟨_, hf⟩ | ⟨_, _, hall⟩ |
    ⟨id2, u2, _, hsp2, hu2, hteam2, hcase⟩
  · rw [hin] at hf
    exact absurd hf (by simp)
  · exact absurd (hall id u hsp hu) hteam
  · rw [hsp] at hsp2
    obtain rfl : id = id2 := Option.some.inj (Option.some.inj hsp2)
    rw [hu] at hu2
    obtain rfl : u = u2 := Option.some.inj hu2
    rcases hcase with ⟨_, heq⟩ | ⟨hk, _⟩
    · rw [heq]
      refine ⟨rfl, ?_, ?_, ?_, ?_⟩
      · show (b.spaces.set (b.to_index d.at') none)[b.to_index d.at']? = some none
        exact List.getElem?_set_self hidxlt
      · show (b.units.set id _)[id]? = some _
        rw [List.getElem?_set_self hidlt]
        rw [show ({ u with health := max (u.health - d.amount) 0 } : Unit) =
          { u with health := 0 } by rw [hkill]]
      · exact List.length_set b.units id _
      · show (match (b.spaces.set (b.to_index d.at') none)[b.to_index d.at']? with
          | some (some id2) =>
            (b.units.set id { u with health := max (u.health - d.amount) 0 })[id2]?
          | some none => none
          | none => (none : Option Unit)) = none
        rw [List.getElem?_set_self hidxlt]
    · exact absurd hkill hk

theorem C6_kill_clears_cell_but_keeps_store_entry_witness :
    (do_damage ((Board.new 4 4).spawn ⟨1, 1⟩ UnitKind.Infantry Team.Red).1
        { team := Team.Blue, amount := 2, at' := ⟨1, 1⟩ }).2 = Except.ok true ∧
    (do_damage ((Board.new 4 4).spawn ⟨1, 1⟩ UnitKind.Infantry Team.Red).1
        { team := Team.Blue, amount := 2, at' := ⟨1, 1⟩ }).1.units[0]? =
      some { Unit.new 0 ⟨1, 1⟩ UnitKind.Infantry Team.Red with health := 0 } := by
  have h := C6_kill_clears_cell_but_keeps_store_entry
    ((Board.new 4 4).spawn ⟨1, 1⟩ UnitKind.Infantry Team.Red).1
    { team := Team.Blue, amount := 2, at' := ⟨1, 1⟩ }
    0 (Unit.new 0 ⟨1, 1⟩ UnitKind.Infantry Team.Red)
    (by decide) (by decide) (by decide) (by decide) (by decide)
  exact ⟨h.1, h.2.2.1⟩

/-- C6 (counterexample): after the kill, looking the dead unit's handle up in
the store still succeeds — the unit is not removed from the Entity Store as
the claim states. -/
theorem C6_dead_unit_still_in_store :
    (do_damage ((Board.new 4 4).spawn ⟨1, 1⟩ UnitKind.Infantry Team.Red).1
        { team := Team.Blue, amount := 2, at' := ⟨1, 1⟩ }).2 = Except.ok true ∧
    ((do_damage ((Board.new 4 4).spawn ⟨1, 1⟩ UnitKind.Infantry Team.Red).1
        { team := Team.Blue, amount := 2, at' := ⟨1, 1⟩ }).1.units[0]?).isSome = true ∧
    ((do_damage ((Board.new 4 4).spawn ⟨1, 1⟩ UnitKind.Infantry Team.Red).1
        { team := Team.Blue, amount := 2, at' := ⟨1, 1⟩ }).1.units[0]?).map
      (fun u => u.health) = some 0 := by
  decide

/-- C7 (amended): `spawn` fails `InvalidPosition` iff the position is outside
the board; otherwise it fails `IncompatibleTerrain` iff the new unit's Space
cannot traverse the destination tile; otherwise it fails `SpaceOccupied` iff
the cell already holds an occupant; in every remaining case it succeeds,
appending a unit with the kind's base stats and marking the cell occupied. -/
theorem C7_spawn_characterization (b : Board)
    (ht : b.tiles.length = b.width * b.height) (p : Vec2) (k : UnitKind) (t : Team) :
    ((b.spawn p k t).2 = Except.error SpawnError.InvalidPosition ↔
      b.in_bounds p = false) ∧
    ((b.spawn p k t).2 = Except.error SpawnError.IncompatibleTerrain ↔
      (∃ tile, b.get_tile p = some tile ∧
        (Unit.new b.units.length p k t).space.can_traverse tile.traverse = false)) ∧
    ((b.spawn p k t).2 = Except.error SpawnError.SpaceOccupied ↔
      ((∃ tile, b.get_tile p = some tile ∧
         (Unit.new b.units.length p k t).space.can_traverse tile.traverse = true) ∧
       (∃ id0, b.spaces[b.to_index p]? = some (some id0)))) ∧
    (∀ tile, b.get_tile p = some tile →
      (Unit.new b.units.length p k t).space.can_traverse tile.traverse = true →
      (∀ id0, b.spaces[b.to_index p]? ≠ some (some id0)) →
      b.spawn p k t =
        ({ b with units := b.units ++ [Unit.new b.units.length p k t],
                  spaces := b.spaces.set (b.to_index p) (some b.units.length) },
         Except.ok b.units.length) ∧
      (Unit.new b.units.length p k t).health = (Unit.new b.units.length p k t).health_max ∧
      (Unit.new b.units.length p k t).position = p ∧
      (Unit.new b.units.length p k t).kind = k ∧
      (Unit.new b.units.length p k t).team = t) := by
  unfold Board.spawn
  dsimp only
  cases hg : b.get_tile p with
  | none =>
      have hinf : b.in_bounds p = false := by
        have hiff := get_tile_isSome_iff b ht p
        rw [hg] at hiff
        simp only [Option.isSome_none, Bool.false_eq_true, false_iff] at hiff
        simpa using hiff
      refine ⟨by simp [hinf], by simp, by simp, ?_⟩
      intro tile htile
      exact absurd htile (by simp)
  | some tile =>
    simp only
    have hint : b.in_bounds p = true := get_tile_some_in_bounds hg
    by_cases hc : (Unit.new b.units.length p k t).space.can_traverse tile.traverse = true
    · rw [if_neg (by simp [hc])]
      cases hsp : b.spaces[b.to_index p]? with
      | none =>
          refine ⟨by simp [hint], by simp [hc], by simp, ?_⟩
          intro tile' htile' _ _
          obtain rfl := Option.some.inj htile'
          exact ⟨rfl, unit_new_health_eq_max _ _ _ _, unit_new_position _ _ _ _,
            unit_new_kind _ _ _ _, unit_new_team _ _ _ _⟩
      | some o =>
        cases o with
        | none =>
            refine ⟨by simp [hint], by simp [hc], by simp, ?_⟩
            intro tile' htile' _ _
            obtain rfl := Option.some.inj htile'
            exact ⟨rfl, unit_new_health_eq_max _ _ _ _, unit_new_position _ _ _ _,
              unit_new_kind _ _ _ _, unit_new_team _ _ _ _⟩
        | some id0 =>
            refine ⟨by simp [hint], by simp [hc], ?_, ?_⟩
            · exact ⟨fun _ => ⟨⟨tile, rfl, hc⟩, ⟨id0, rfl⟩⟩, fun _ => rfl⟩
            · intro tile' htile' hctr' hemp
              exact absurd rfl (hemp id0)
    · rw [if_pos (by simpa using hc)]
      have hcf : (Unit.new b.units.length p k t).space.can_traverse tile.traverse = false := by
        simpa using hc
      refine ⟨by simp [hint], ?_, by simp [hcf], ?_⟩
      · constructor
        · intro _
          exact ⟨tile, rfl, hcf⟩
        · intro _
          rfl
      · intro tile' htile' hctr'
        obtain rfl := Option.some.inj htile'
        rw [hctr'] at hcf
        exact absurd hcf (by simp)

theorem C7_spawn_characterization_witness :
    ((Board.new 4 4).spawn ⟨9, 9⟩ UnitKind.Tank Team.Red).2 =
        Except.error SpawnError.InvalidPosition ↔
      (Board.new 4 4).in_bounds ⟨9, 9⟩ = false :=
  (C7_spawn_characterization (Board.new 4 4) (by decide) ⟨9, 9⟩ UnitKind.Tank Team.Red).1

/-- C7 (counterexample): an in-bounds, unoccupied wall cell refutes "in every
other case succeeds": spawning a ground Tank at the perimeter cell (0,0)
fails `IncompatibleTerrain` although the cell is neither out of bounds nor
occupied. -/
theorem C7_spawn_terrain_failure :
    (Board.new 4 4).in_bounds ⟨0, 0⟩ = true ∧
    (Board.new 4 4).spaces[(Board.new 4 4).to_index ⟨0, 0⟩]? = some none ∧
    ((Board.new 4 4).spawn ⟨0, 0⟩ UnitKind.Tank Team.Red).2 =
      Except.error SpawnError.IncompatibleTerrain := by
  decide

/-- C8 (amended): `do_move` fails `DestinationNotReachable` iff the unit
resolves and the destination is unreachable from its position under its
Space's navigation mask — with *no* bound on path cost.  The movement budget
is only enforced by the caller's `movement_query` pre-filter, not by the
command itself. -/
theorem C8_move_unreachable_iff (b : Board) (m : Move) :
    (do_move b m).2 = Except.error MoveError.DestinationNotReachable ↔
      ∃ u, b.units[m.unit]? = some u ∧
        ¬ Search.Reachable Vec2.nbrs (b.navWalk u.space) u.position m.to' := by
  unfold do_move
  cases hu : b.units[m.unit]? with
  | none =>
      simp only
      constructor
      · intro h
        exact absurd h (by simp)
      · rintro ⟨u, hcon, _⟩
        exact Option.noConfusion hcon
  | some u =>
    simp only
    cases hp : Search.findPath Vec2.nbrs (b.navWalk u.space)
        (b.width * b.height + 1) u.position m.to' with
    | none =>
        constructor
        · intro _
          exact ⟨u, rfl, (findPath_none_iff b u.space u.position m.to').mp hp⟩
        · intro _
          rfl
    | some path =>
        simp only
        have hreach : Search.Reachable Vec2.nbrs (b.navWalk u.space) u.position m.to' := by
          by_contra hnr
          rw [(findPath_none_iff b u.space u.position m.to').mpr hnr] at hp
          exact Option.noConfusion hp
        cases hwl : walk_loop b path m.to' u.position with
        | mk destination before_destination =>
          simp only
          cases hdd : do_damage b
              { team := u.team, amount := u.damage, at' := destination } with
          | mk b1 dres =>
            simp only
            constructor
            · intro h
              exfalso
              revert h
              generalize (match dres with
                | Except.ok true => destination
                | Except.ok false => before_destination
                | Except.error _ => destination) = target
              cases hw : do_warp b1 { unit := m.unit, to' := target } with
              | mk b2 r =>
                cases r with
                | error e =>
                    cases e <;> simp
                | ok _ => simp
            · rintro ⟨u', hcon, hnr⟩
              obtain rfl := Option.some.inj hcon
              exact absurd hreach hnr

theorem C8_move_unreachable_iff_witness :
    (do_move ((Board.new 5 5).spawn ⟨1, 1⟩ UnitKind.Tank Team.Red).1
        { unit := 0, to' := ⟨0, 0⟩ }).2 = Except.error MoveError.DestinationNotReachable ↔
      ∃ u, ((Board.new 5 5).spawn ⟨1, 1⟩ UnitKind.Tank Team.Red).1.units[0]? = some u ∧
        ¬ Search.Reachable Vec2.nbrs
          (((Board.new 5 5).spawn ⟨1, 1⟩ UnitKind.Tank Team.Red).1.navWalk u.space)
          u.position ⟨0, 0⟩ :=
  C8_move_unreachable_iff ((Board.new 5 5).spawn ⟨1, 1⟩ UnitKind.Tank Team.Red).1
    { unit := 0, to' := ⟨0, 0⟩ }

/-- C8 (counterexample): a Tank (speed 2) on an empty 5×5 board is moved to
(3,3), Manhattan distance 4 from its position (1,1) — the destination is not
reachable within any budget-2 action circle, yet `do_move` succeeds and
performs the move: no `DestinationUnreachable` error. -/
theorem C8_move_beyond_budget_succeeds :
    Vec2.square_distance_to ⟨1, 1⟩ ⟨3, 3⟩ = 4 ∧
    (Unit.new 0 ⟨1, 1⟩ UnitKind.Tank Team.Red).speed = 2 ∧
    (∀ n ≤ 2, ¬ Search.ReachN Vec2.nbrs
      (((Board.new 5 5).spawn ⟨1, 1⟩ UnitKind.Tank Team.Red).1.navWalk Space.Ground)
      ⟨1, 1⟩ n ⟨3, 3⟩) ∧
    (do_move ((Board.new 5 5).spawn ⟨1, 1⟩ UnitKind.Tank Team.Red).1
        { unit := 0, to' := ⟨3, 3⟩ }).2 = Except.ok PUnit.unit ∧
    ((do_move ((Board.new 5 5).spawn ⟨1, 1⟩ UnitKind.Tank Team.Red).1
        { unit := 0, to' := ⟨3, 3⟩ }).1.units[0]?).map (fun u => u.position) =
      some ⟨3, 3⟩ := by
  decide

end Game
